import Mathlib

/-!
Verification of the ZRA Smart Invoice pre-submission validator
(`src/lib/validation.ts` and `src/lib/zraValidationRules.ts`).

The TypeScript engine operates on values decoded from XML/CSV/JSON.  We model
those runtime values by the type `JVal` below: JSON-representable trees of
scalars, arrays and string-keyed objects.  JavaScript `undefined` is modelled
by `Option JVal` (with `none` standing for `undefined`), matching the fact
that reading an absent object key yields `undefined`.  JavaScript numbers are
modelled as exact rationals; every numeric literal and every decimal string
the engine manipulates in the proved claims is exactly representable, so the
0.01-tolerance comparisons and half-up rounding used by the engine coincide
with their ideal rational counterparts on those inputs.
-/

namespace ZRA

/-- JSON-representable runtime values (the decoded payloads the engine sees).
Objects are association lists in key order, mirroring JavaScript property
order; keys of real JS objects are unique. -/
inductive JVal where
  | null : JVal
  | bool : Bool → JVal
  | num : ℚ → JVal
  | str : String → JVal
  | arr : List JVal → JVal
  | obj : List (String × JVal) → JVal
  deriving Repr

/-- Object contents: an association list of fields. -/
abbrev JObj := List (String × JVal)

/-- Property read, `o[k]`; `none` models JavaScript `undefined`. -/
def jlookup (o : JObj) (k : String) : Option JVal :=
  match o with
  | [] => none
  | (k', v) :: rest => if k' = k then some v else jlookup rest k

/-- Property write, `o[k] = v`: updates an existing key in place, otherwise
appends the new key (JavaScript property-order semantics). -/
def jset (o : JObj) (k : String) (v : JVal) : JObj :=
  match o with
  | [] => [(k, v)]
  | (k', w) :: rest => if k' = k then (k, v) :: rest else (k', w) :: jset rest k v

/-- The source's `isObject` helper: a non-null object that is not an array. -/
def isObjectV : JVal → Bool
  | .obj _ => true
  | _ => false

/-- JavaScript truthiness of a possibly-undefined value.  (`NaN`, the one
falsy number other than 0, is not representable in the rational model.) -/
def truthy : Option JVal → Bool
  | none => false
  | some .null => false
  | some (.bool b) => b
  | some (.num q) => decide (q ≠ 0)
  | some (.str s) => decide (s ≠ "")
  | some (.arr _) => true
  | some (.obj _) => true

/-- JavaScript `a || b`: the first operand if truthy, otherwise the second. -/
def jor (a b : Option JVal) : Option JVal :=
  if truthy a then a else b

/-- JavaScript `typeof` (on the values `JVal` can denote). -/
def jsTypeof : JVal → String
  | .str _ => "string"
  | .num _ => "number"
  | .bool _ => "boolean"
  | .null => "object"
  | .arr _ => "object"
  | .obj _ => "object"

/-! ### Number-to-string rendering

JavaScript renders a double as its shortest decimal form.  The rationals that
reach a string conversion in the proved claims all have a finite decimal
expansion, which is rendered exactly; rationals with no finite decimal
expansion (unreachable from the engine's own arithmetic) fall back to a
fraction rendering. -/

/-- Number of times `p` divides `n` (with `fuel` bounding the recursion). -/
def multiplicityAux (p : ℕ) : ℕ → ℕ → ℕ
  | 0, _ => 0
  | fuel + 1, n => if n % p = 0 ∧ 2 ≤ p ∧ 1 ≤ n / p then multiplicityAux p fuel (n / p) + 1 else 0

/-- Number of times `p` divides `n`. -/
def multiplicity (p n : ℕ) : ℕ := multiplicityAux p n n

/-- Decimal rendering of the nonnegative fraction `n / d` scaled by `10 ^ k`
decimal places (`d` divides `n * 10 ^ k`; the caller picks `k` minimal so no
trailing zero is produced, matching JavaScript's shortest rendering). -/
def decimalString (n d k : ℕ) : String :=
  let m := n * 10 ^ k / d
  let s := toString m
  if k = 0 then s
  else
    let s := if s.length < k + 1 then String.mk (List.replicate (k + 1 - s.length) '0') ++ s else s
    let cs := s.data
    String.mk (cs.take (cs.length - k)) ++ "." ++ String.mk (cs.drop (cs.length - k))

/-- JavaScript `String(q)` for a number: exact shortest decimal when the
denominator is of the form `2^a * 5^b`, fraction fallback otherwise. -/
def ratToString (q : ℚ) : String :=
  let n := q.num.natAbs
  let d := q.den
  let a := multiplicity 2 d
  let b := multiplicity 5 d
  let core :=
    if d = 2 ^ a * 5 ^ b then decimalString n d (max a b)
    else toString n ++ "/" ++ toString d
  if q < 0 then "-" ++ core else core

/-! ### String coercion (`String(value)`) and `JSON.stringify` -/

mutual

/-- JavaScript `String(value)` on a defined value. -/
def jsString : JVal → String
  | .null => "null"
  | .bool b => if b then "true" else "false"
  | .num q => ratToString q
  | .str s => s
  | .arr xs => jsArrayJoin xs
  | .obj _ => "[object Object]"

/-- `Array.prototype.toString`: elements joined with commas, `null` (and
`undefined`) elements becoming empty strings. -/
def jsArrayJoin : List JVal → String
  | [] => ""
  | [x] => match x with
    | .null => ""
    | v => jsString v
  | x :: y :: rest =>
      (match x with
       | .null => ""
       | v => jsString v) ++ "," ++ jsArrayJoin (y :: rest)

end

/-- Escape quotes and backslashes inside a JSON string literal. -/
def jsonEscape : List Char → String
  | [] => ""
  | c :: rest =>
      (if c = '"' then "\\\"" else if c = '\\' then "\\\\" else String.mk [c]) ++ jsonEscape rest

mutual

/-- `JSON.stringify` of a defined value (string escaping restricted to the
quote and backslash, which is all the engine's inputs exercise). -/
def jsonStringify : JVal → String
  | .null => "null"
  | .bool b => if b then "true" else "false"
  | .num q => ratToString q
  | .str s => "\"" ++ jsonEscape s.data ++ "\""
  | .arr xs => "[" ++ jsonStringifyArr xs ++ "]"
  | .obj fs => "\x7b" ++ jsonStringifyObj fs ++ "\x7d"

/-- Elements of a serialized array. -/
def jsonStringifyArr : List JVal → String
  | [] => ""
  | [x] => jsonStringify x
  | x :: y :: rest => jsonStringify x ++ "," ++ jsonStringifyArr (y :: rest)

/-- Fields of a serialized object. -/
def jsonStringifyObj : List (String × JVal) → String
  | [] => ""
  | [(k, v)] => "\"" ++ jsonEscape k.data ++ "\":" ++ jsonStringify v
  | (k, v) :: f :: rest =>
      "\"" ++ jsonEscape k.data ++ "\":" ++ jsonStringify v ++ "," ++ jsonStringifyObj (f :: rest)

end

end ZRA

namespace ZRA

/-! ### Character classes, trimming, digit decoding -/

/-- ASCII digit test (the `\d` / `[0-9]` character class). -/
def isDigitChar (c : Char) : Bool := '0' ≤ c ∧ c ≤ '9'

/-- JavaScript whitespace test, restricted to the ASCII whitespace the
engine's inputs can contain. -/
def isWsChar (c : Char) : Bool :=
  c = ' ' ∨ c = '\t' ∨ c = '\n' ∨ c = '\r' ∨ c = '\x0b' ∨ c = '\x0c'

/-- `String.prototype.trim`. -/
def jsTrim (s : String) : String :=
  String.mk (((s.data.dropWhile isWsChar).reverse.dropWhile isWsChar).reverse)

/-- Decimal value of a digit string (the effect of `parseInt` on an
all-digit string, and of number construction from matched digit groups). -/
def decodeDigits (l : List Char) : ℕ :=
  l.foldl (fun a c => a * 10 + (c.toNat - 48)) 0

/-- `padStart(n, '0')` on a character list. -/
def padZerosTo (n : ℕ) (l : List Char) : List Char :=
  List.replicate (n - l.length) '0' ++ l


/-! ### Kernel-reducible rational arithmetic

The `Rat` ring operations of core Lean do not unfold during kernel reduction,
which would make concrete runs of the engine impossible to check by `decide`.
The engine therefore uses the following operations, each defined directly by
`mkRat`/`Rat.divInt` on numerators and denominators and each proved equal to
the corresponding ring operation. -/

/-- Addition: `a + b`. -/
def qAdd (a b : ℚ) : ℚ := mkRat (a.num * b.den + b.num * a.den) (a.den * b.den)

/-- Subtraction: `a - b`. -/
def qSub (a b : ℚ) : ℚ := mkRat (a.num * b.den - b.num * a.den) (a.den * b.den)

/-- Multiplication: `a * b`. -/
def qMul (a b : ℚ) : ℚ := mkRat (a.num * b.num) (a.den * b.den)

/-- Division: `a / b` (yielding 0 for a zero divisor, as `Rat.inv` does). -/
def qDiv (a b : ℚ) : ℚ := Rat.divInt (a.num * b.den) (a.den * b.num)

/-- Negation: `-a`. -/
def qNeg (a : ℚ) : ℚ := mkRat (-a.num) a.den

/-- Absolute value (`Math.abs`). -/
def qAbs (a : ℚ) : ℚ := if a < 0 then qNeg a else a

/-- `Math.round`: ⌊x + 1/2⌋, JavaScript's half-towards-positive-infinity. -/
def jsRound (x : ℚ) : ℤ := Int.fdiv (2 * x.num + x.den) (2 * x.den)

theorem qAdd_eq (a b : ℚ) : qAdd a b = a + b := (Rat.add_def' a b).symm

theorem qSub_eq (a b : ℚ) : qSub a b = a - b := (Rat.sub_def' a b).symm

theorem qMul_eq (a b : ℚ) : qMul a b = a * b := by
  rw [qMul, Rat.mul_def, Rat.normalize_eq_mkRat]

theorem qNeg_eq (a : ℚ) : qNeg a = -a := by
  rw [qNeg, Rat.mkRat_eq_divInt, ← Rat.neg_divInt, Rat.num_divInt_den]

theorem qAbs_eq (a : ℚ) : qAbs a = |a| := by
  rw [qAbs]
  split
  · rw [qNeg_eq, abs_of_neg (by assumption)]
  · rw [abs_of_nonneg (le_of_not_lt (by assumption))]

theorem qDiv_eq (a b : ℚ) : qDiv a b = a / b := by
  rcases eq_or_ne b.num 0 with h | h
  · have hb : b = 0 := by rwa [Rat.num_eq_zero] at h
    simp [qDiv, hb, Rat.div_def, Rat.inv_zero]
  · rw [qDiv, Rat.div_def, Rat.inv_def]
    calc Rat.divInt (a.num * ↑b.den) (↑a.den * b.num)
        = Rat.divInt a.num a.den * Rat.divInt b.den b.num := by
          rw [Rat.divInt_mul_divInt _ _ (by exact_mod_cast a.den_nz) h]
      _ = a * Rat.divInt b.den b.num := by rw [Rat.num_divInt_den]

theorem jsRound_eq (x : ℚ) : jsRound x = ⌊x + 1/2⌋ := by
  have hx : x + 1/2 = (((2 * x.num + (x.den : ℤ)) : ℤ) : ℚ) / (((2 * x.den : ℕ)) : ℚ) := by
    conv_lhs => rw [← Rat.num_div_den x]
    push_cast
    have hden : ((x.den : ℚ)) ≠ 0 := by exact_mod_cast x.den_nz
    field_simp
    ring
  rw [hx, Rat.floor_intCast_div_natCast, jsRound, Int.fdiv_eq_ediv _ (by positivity)]
  norm_num

/-! ### `parseFloat`

`parseFloat` reads the longest numeric prefix (optional sign, digits with at
most one decimal point) and ignores trailing junk; it yields `NaN` (modelled
as `none`) when no digit is read.  The strings the engine feeds it are
pre-filtered to the alphabet of digits, `.`, `-` and `^`, so the exponent and
`Infinity` forms of full `parseFloat` can never occur and are omitted. -/

/-- Unsigned core of `parseFloat`: longest prefix `digits [. digits]`,
requiring at least one digit overall. -/
def parseFloatCore (l : List Char) : Option ℚ :=
  let intPart := l.takeWhile isDigitChar
  let rest := l.drop intPart.length
  let fracPart :=
    match rest with
    | '.' :: r => r.takeWhile isDigitChar
    | _ => []
  if intPart.length = 0 ∧ fracPart.length = 0 then none
  else
    some (mkRat (decodeDigits intPart * 10 ^ fracPart.length + decodeDigits fracPart)
      (10 ^ fracPart.length))

/-- `parseFloat` on a character list: optional single leading sign. -/
def jsParseFloat (l : List Char) : Option ℚ :=
  match l with
  | '-' :: rest => (parseFloatCore rest).map qNeg
  | '+' :: rest => parseFloatCore rest
  | _ => parseFloatCore l

/-! ### `parseNumber` (validation.ts lines 98-106) -/

/-- Characters kept by the cleaning regex `/[^^\d.-]/g`: digits, `.`, `-`
and, because the character class contains a second literal caret, `^`. -/
def keepNumChar (c : Char) : Bool :=
  isDigitChar c ∨ c = '.' ∨ c = '-' ∨ c = '^'

/-- `parseNumber(value)`: numbers pass through; `null`/`undefined` give
`null`; otherwise stringify, strip to `keepNumChar`, `parseFloat`. -/
def parseNumber (v : Option JVal) : Option ℚ :=
  match v with
  | some (.num q) => some q
  | none => none
  | some .null => none
  | some w => jsParseFloat ((jsString w).data.filter keepNumChar)

/-! ### `normalizeTpin` (validation.ts lines 18-40) -/

/-- Correction confidence tiers. -/
inductive Confidence where
  | high | medium | low
  deriving DecidableEq, Repr

/-- Result of a normalizer: canonical text plus a confidence tier. -/
structure NormRes where
  normalized : String
  confidence : Confidence
  deriving DecidableEq, Repr

/-- The string coercion used by `normalizeTpin`: `String(value)` for strings
and numbers, `JSON.stringify(value)` otherwise. -/
def tpinText (v : JVal) : String :=
  match v with
  | .str s => s
  | .num q => ratToString q
  | w => jsonStringify w

/-- `normalizeTpin(value)`. -/
def normalizeTpin (v : Option JVal) : NormRes :=
  match v with
  | none => ⟨"0000000000", .low⟩
  | some .null => ⟨"0000000000", .low⟩
  | some w =>
    let cleaned := (tpinText w).data.filter isDigitChar
    if cleaned.length = 10 then ⟨String.mk cleaned, .high⟩
    else if cleaned.length = 9 then ⟨"0" ++ String.mk cleaned, .medium⟩
    else if cleaned.length > 10 then ⟨String.mk (cleaned.take 10), .medium⟩
    else if cleaned.length ≥ 6 then ⟨String.mk (cleaned ++ List.replicate (10 - cleaned.length) '0'), .low⟩
    else ⟨"0000000000", .low⟩

/-! ### Calendar arithmetic for `normalizeDate` -/

/-- A calendar date, standing for the `new Date()` current moment truncated
to its UTC day (the engine only compares and prints dates at day
granularity). -/
structure YMD where
  year : ℕ
  month : ℕ
  day : ℕ
  deriving DecidableEq, Repr

/-- Gregorian leap-year test. -/
def isLeap (y : ℕ) : Bool := (y % 4 = 0 ∧ y % 100 ≠ 0) ∨ y % 400 = 0

/-- Days in a month. -/
def daysInMonth (y m : ℕ) : ℕ :=
  if m = 2 then (if isLeap y then 29 else 28)
  else if m = 4 ∨ m = 6 ∨ m = 9 ∨ m = 11 then 30
  else 31

/-- Validity of `new Date("YYYY-MM-DD")` for a zero-padded candidate: the
V8 ISO parser rejects out-of-range months and days. -/
def validYMD (y m d : ℕ) : Bool :=
  1 ≤ m ∧ m ≤ 12 ∧ 1 ≤ d ∧ d ≤ daysInMonth y m

/-- Date comparison at day granularity: a date-only string parses to UTC
midnight, so `date <= new Date()` holds exactly when the date does not lie
after the current day. -/
def ymdLE (a b : YMD) : Bool :=
  a.year < b.year ∨ (a.year = b.year ∧ (a.month < b.month ∨ (a.month = b.month ∧ a.day ≤ b.day)))

/-- Zero-padded `YYYY-MM-DD` rendering of a date. -/
def isoOfYMD (t : YMD) : String :=
  String.mk (padZerosTo 4 (toString t.year).data) ++ "-" ++
  String.mk (padZerosTo 2 (toString t.month).data) ++ "-" ++
  String.mk (padZerosTo 2 (toString t.day).data)

/-- Civil date from days since the Unix epoch (Howard Hinnant's algorithm,
specialised to nonnegative day counts), used for the timestamp branch's
`toISOString` rendering. -/
def civilFromDays (z0 : ℕ) : YMD :=
  let z := z0 + 719468
  let era := z / 146097
  let doe := z % 146097
  let yoe := (doe - doe / 1460 + doe / 36524 - doe / 146096) / 365
  let y := yoe + era * 400
  let doy := doe - (365 * yoe + yoe / 4 - yoe / 100)
  let mp := (5 * doy + 2) / 153
  let d := doy - (153 * mp + 2) / 5 + 1
  let m := if mp < 10 then mp + 3 else mp - 9
  ⟨if m ≤ 2 then y + 1 else y, m, d⟩

end ZRA

namespace ZRA

/-! ### `normalizeDate` (validation.ts lines 43-95)

The five regular expressions tried in order are

  0: `^(\d{4})-(\d{1,2})-(\d{1,2})$`   (year first, dash)
  1: `^(\d{2})\/(\d{1,2})\/(\d{4})$`   (day first, slash, day exactly 2 digits)
  2: `^(\d{1,2})-(\d{1,2})-(\d{4})$`   (day first, dash)
  3: `^(\d{4})\/(\d{1,2})\/(\d{1,2})$` (year first, slash)
  4: `^(\d{1,2})\.(\d{1,2})\.(\d{4})$` (day first, dot)

Each is anchored on both sides and its groups are all-digit, so a string
matches one of them exactly when splitting on the separator yields three
all-digit groups of the required lengths.  For a fixed separator the year-
first and day-first patterns are mutually exclusive (a group cannot have
length 4 and length at most 2 at once), no string can match patterns with two
different separators (the groups are digits, which exclude both separators),
and no pattern-matching string is all digits, so it cannot also fire the
timestamp branch.  The source's loop, which on a match whose date fails
validation keeps trying the remaining patterns, therefore reaches the
timestamp/fallback code exactly when the first (unique) matching pattern
fails validation — which is how `normalizeDate` is written below. -/

/-- Split a character list on a separator (every occurrence, keeping empty
groups), mirroring how an anchored three-group regex carves up a string. -/
def splitSep (sep : Char) (l : List Char) : List (List Char) :=
  match l with
  | [] => [[]]
  | c :: rest =>
    match splitSep sep rest with
    | [] => [[]]
    | g :: gs => if c = sep then [] :: g :: gs else (c :: g) :: gs

/-- Group test: all digits with length in `[lo, hi]`. -/
def digitGroup (lo hi : ℕ) (g : List Char) : Bool :=
  g.all isDigitChar ∧ lo ≤ g.length ∧ g.length ≤ hi

/-- Match a year-first pattern `^(\d{4})sep(\d{1,2})sep(\d{1,2})$`, returning
`(year, month, day)` digit groups. -/
def matchYearFirst (sep : Char) (l : List Char) : Option (List Char × List Char × List Char) :=
  match splitSep sep l with
  | [a, b, c] =>
      if digitGroup 4 4 a ∧ digitGroup 1 2 b ∧ digitGroup 1 2 c then some (a, b, c) else none
  | _ => none

/-- Match a day-first pattern `^(\d{dLo,2})sep(\d{1,2})sep(\d{4})$`, returning
`(year, month, day)` digit groups (note the source reads day first). -/
def matchDayFirst (sep : Char) (dLo : ℕ) (l : List Char) : Option (List Char × List Char × List Char) :=
  match splitSep sep l with
  | [a, b, c] =>
      if digitGroup dLo 2 a ∧ digitGroup 1 2 b ∧ digitGroup 4 4 c then some (c, b, a) else none
  | _ => none

/-- The first matching format among the five, in source order. -/
def firstDateMatch (l : List Char) : Option (List Char × List Char × List Char) :=
  match matchYearFirst '-' l with
  | some r => some r
  | none =>
  match matchDayFirst '/' 2 l with
  | some r => some r
  | none =>
  match matchDayFirst '-' 1 l with
  | some r => some r
  | none =>
  match matchYearFirst '/' l with
  | some r => some r
  | none => matchDayFirst '.' 1 l

/-- The string coercion used by `normalizeDate`: `String(value)` for strings
and numbers, `JSON.stringify(value)` otherwise, then trimmed. -/
def dateText (v : JVal) : String :=
  match v with
  | .str s => jsTrim s
  | .num q => jsTrim (ratToString q)
  | w => jsTrim (jsonStringify w)

/-- `normalizeDate(value)` relative to the current day `today`. -/
def normalizeDate (today : YMD) (v : Option JVal) : NormRes :=
  match v with
  | none => ⟨isoOfYMD today, .low⟩
  | some .null => ⟨isoOfYMD today, .low⟩
  | some w =>
    let sv := (dateText w).data
    let fromFormat :=
      match firstDateMatch sv with
      | some (ys, ms, ds) =>
          let normalized := String.mk ys ++ "-" ++ String.mk (padZerosTo 2 ms) ++ "-" ++
            String.mk (padZerosTo 2 ds)
          let y := decodeDigits ys
          let m := decodeDigits ms
          let d := decodeDigits ds
          if validYMD y m d ∧ ymdLE ⟨y, m, d⟩ today ∧ 2000 ≤ y ∧ y ≤ today.year + 1 then
            some (⟨normalized, .high⟩ : NormRes)
          else none
      | none => none
    match fromFormat with
    | some r => r
    | none =>
      if sv.all isDigitChar ∧ 10 ≤ sv.length ∧ sv.length ≤ 13 then
        let ts := decodeDigits sv
        let ms := if (toString ts).length = 10 then ts * 1000 else ts
        ⟨isoOfYMD (civilFromDays (ms / 86400000)), .medium⟩
      else ⟨isoOfYMD today, .low⟩

end ZRA

namespace ZRA

/-! ### Issue and result types (types/index.ts) -/

/-- Issue severity. -/
inductive Severity where
  | error | warning | info
  deriving DecidableEq, Repr

/-- Issue category. -/
inductive Category where
  | tpin | date | vat | amount | mandatory | duplicate | currency | schema
  deriving DecidableEq, Repr

/-- A validation issue.  `originalValue`/`fixedValue` hold the runtime values
the source stores there (strings for the rendered ones); `none` models an
`undefined` entry. -/
structure Issue where
  severity : Severity
  field : String
  message : String
  originalValue : Option JVal
  fixedValue : Option JVal
  autoFixed : Bool
  confidence : Confidence
  category : Category
  deriving Repr

/-- The overall result of `validateAndFix`. -/
structure ValidationResult where
  isValid : Bool
  issues : List Issue
  originalData : Option JVal
  fixedData : Option JVal
  deriving Repr

/-! ### Small helpers shared by the rule blocks -/

/-- The `extractPrimitive` helper (validation.ts lines 156-169). -/
def extractPrimitive (v : Option JVal) : Option JVal :=
  match v with
  | none => none
  | some .null => some .null
  | some (.obj fs) =>
      match jlookup fs "#text" with
      | some t => some t
      | none =>
        match fs with
        | [(_, w)] => if isObjectV w then some (.obj fs) else some w
        | _ => some (.obj fs)
  | some w => some w

/-- Strict inequality `s !== v` with a string left operand: true unless `v`
is the same string. -/
def strNe (s : String) (v : Option JVal) : Bool :=
  match v with
  | some (.str t) => decide (s ≠ t)
  | _ => true

/-- `String(x || d)` for a string default `d`. -/
def jsStringOr (v : Option JVal) (d : String) : String :=
  match v with
  | some w => if truthy (some w) then jsString w else d
  | none => d

/-- Lowercase a whole string (`toLowerCase`, ASCII). -/
def lowerAll (s : String) : String := String.mk (s.data.map Char.toLower)

/-- Lowercase the first character (`charAt(0).toLowerCase() + slice(1)`). -/
def lowerFirst (s : String) : String :=
  match s.data with
  | [] => ""
  | c :: rest => String.mk (c.toLower :: rest)

/-- Uppercase a whole string (`toUpperCase`, ASCII). -/
def jsToUpper (s : String) : String := String.mk (s.data.map Char.toUpper)

/-- Issue field locator `name (Record i+1)`. -/
def fieldLabel (name : String) (idx : ℕ) : String :=
  name ++ " (Record " ++ toString (idx + 1) ++ ")"

/-- Issue field locator `name (Record i+1, Line j+1)`. -/
def lineLabel (name : String) (idx lineIndex : ℕ) : String :=
  name ++ " (Record " ++ toString (idx + 1) ++ ", Line " ++ toString (lineIndex + 1) ++ ")"

/-- `Math.round(q * 100) / 100`. -/
def round2 (q : ℚ) : ℚ := Rat.divInt (jsRound (qMul q 100)) 100

theorem round2_eq (q : ℚ) : round2 q = ((⌊q * 100 + 1/2⌋ : ℤ) : ℚ) / 100 := by
  rw [round2, jsRound_eq, qMul_eq, Rat.divInt_eq_div]
  norm_num

/-! ### `validateMandatoryFields` (zraValidationRules.ts) -/

/-- `ZRA_FIELD_REQUIREMENTS.MANDATORY_INVOICE_FIELDS`. -/
def MANDATORY_INVOICE_FIELDS : List String :=
  ["TPIN", "InvoiceDate", "InvoiceNumber", "TaxableAmount", "VATAmount", "GrandTotal"]

/-- JavaScript `a ?? b` (nullish coalescing). -/
def njoin (a b : Option JVal) : Option JVal :=
  match a with
  | none => b
  | some .null => b
  | some w => some w

/-- Missing-value test `value === undefined || value === null || value === ''`. -/
def isMissingVal (v : Option JVal) : Bool :=
  match v with
  | none => true
  | some .null => true
  | some (.str "") => true
  | _ => false

/-- `validateMandatoryFields(record).missing`: the mandatory invoice fields
whose three alias spellings are all absent, null or empty. -/
def validateMandatoryFields (r : JObj) : List String :=
  MANDATORY_INVOICE_FIELDS.filter (fun f =>
    isMissingVal (njoin (jlookup r f) (njoin (jlookup r (lowerAll f)) (jlookup r (lowerFirst f)))))

/-! ### Per-rule blocks of `validateAndFix`, in source order -/

/-- Mandatory-field issues (validation.ts lines 172-186). -/
def mandatoryIssues (idx : ℕ) (r : JObj) : List Issue :=
  (validateMandatoryFields r).map (fun f =>
    ⟨.error, fieldLabel f idx, "Mandatory field missing per ZRA requirements",
     some (.str "missing"), some (.str "REQUIRED"), false, .high, .mandatory⟩)

/-- The batch-scoped invoice-number dedup table (`Map` as an association
list; insertion appends, lookup finds the unique entry). -/
abbrev Seen := List (String × ℕ)

/-- Lookup in the dedup table. -/
def lookupSeen : Seen → String → Option ℕ
  | [], _ => none
  | (s, i) :: rest, k => if s = k then some i else lookupSeen rest k

/-- The invoice-number read
`extractPrimitive(record.InvoiceNumber) || extractPrimitive(record.invoiceNumber) || extractPrimitive(record.InvoiceNo)`. -/
def invoiceVal (r : JObj) : Option JVal :=
  jor (extractPrimitive (jlookup r "InvoiceNumber"))
    (jor (extractPrimitive (jlookup r "invoiceNumber")) (extractPrimitive (jlookup r "InvoiceNo")))

/-- The duplicate-invoice issue for record `idx`, referencing the first
occurrence `first` (validation.ts lines 206-215). -/
def dupIssue (idx first : ℕ) (s : String) : Issue :=
  ⟨.error, fieldLabel "InvoiceNumber" idx,
   "Duplicate invoice number detected (first seen in Record " ++ toString (first + 1) ++
     "). Each invoice must have a unique number per ZRA regulations",
   some (.str s), some (.str "MANUAL_REVIEW_REQUIRED"), false, .high, .duplicate⟩

/-- The missing-invoice-number issue (validation.ts lines 191-200). -/
def invMissingIssue (idx : ℕ) : Issue :=
  ⟨.error, fieldLabel "InvoiceNumber" idx, "Invoice number is mandatory per ZRA requirements",
   some (.str "missing"), some (.str "REQUIRED"), false, .high, .mandatory⟩

/-- Invoice-number block (validation.ts lines 188-219): missing number is a
mandatory error; otherwise the trimmed string is checked against and entered
into the dedup table, a repeat producing the duplicate error. -/
def invoiceBlock (seen : Seen) (idx : ℕ) (r : JObj) : List Issue × Seen :=
  let f := invoiceVal r
  if truthy f then
    match f with
    | some v =>
      let s := jsTrim (jsString v)
      match lookupSeen seen s with
      | some first => ([dupIssue idx first s], seen)
      | none => ([], seen ++ [(s, idx)])
    | none => ([], seen)
  else ([invMissingIssue idx], seen)

/-- The currency read
`extractPrimitive(record.Currency) || extractPrimitive(record.currency) || extractPrimitive(record.CurrencyCode)`. -/
def currencyVal (r : JObj) : Option JVal :=
  jor (extractPrimitive (jlookup r "Currency"))
    (jor (extractPrimitive (jlookup r "currency")) (extractPrimitive (jlookup r "CurrencyCode")))

/-- The write-back key for a currency fix (validation.ts line 226): the first
alias key that is present (`!== undefined`) on the record. -/
def currencyFieldName (r : JObj) : String :=
  if (jlookup r "Currency").isSome then "Currency"
  else if (jlookup r "currency").isSome then "currency"
  else "CurrencyCode"

/-- Issue and fix for an absent currency (validation.ts lines 239-252). -/
def currencyMissing (idx : ℕ) (fixed : JObj) : JObj × List Issue :=
  (jset fixed "Currency" (.str "ZMW"),
   [⟨.info, fieldLabel "Currency" idx, "Currency set to ZMW (Zambian Kwacha)",
     some (.str "missing"), some (.str "ZMW"), true, .high, .currency⟩])

/-- Currency block (validation.ts lines 221-252). -/
def currencyBlock (idx : ℕ) (r fixed : JObj) : JObj × List Issue :=
  let cv := currencyVal r
  if truthy cv then
    match cv with
    | some v =>
      let cs := jsTrim (jsToUpper (jsString v))
      if cs ≠ "ZMW" ∧ cs ≠ "ZK" then
        (jset fixed (currencyFieldName r) (.str "ZMW"),
         [⟨.warning, fieldLabel (currencyFieldName r) idx,
           "Currency must be ZMW (Zambian Kwacha) per ZRA requirements",
           some (.str cs), some (.str "ZMW"), true, .high, .currency⟩])
      else (fixed, [])
    | none => (fixed, [])
  else currencyMissing idx fixed

end ZRA

namespace ZRA

/-- The TPIN write/read key (validation.ts line 256): the first present alias
among `TPIN`, `tpin`, `TaxpayerTIN`. -/
def tpinField (r : JObj) : String :=
  if (jlookup r "TPIN").isSome then "TPIN"
  else if (jlookup r "tpin").isSome then "tpin"
  else "TaxpayerTIN"

/-- TPIN block (validation.ts lines 254-273): evaluated only when some alias
is present; the value is read and written back at `tpinField`. -/
def tpinBlock (idx : ℕ) (r fixed : JObj) : JObj × List Issue :=
  if (jlookup r "TPIN").isSome ∨ (jlookup r "tpin").isSome ∨ (jlookup r "TaxpayerTIN").isSome then
    let f := tpinField r
    let tv := extractPrimitive (jlookup r f)
    let nr := normalizeTpin tv
    if strNe nr.normalized tv then
      (jset fixed f (.str nr.normalized),
       [⟨if nr.confidence = .low then .error else .warning, fieldLabel f idx,
         "TPIN normalized to ZRA 10-digit format (" ++ nr.normalized ++ ")",
         tv, some (.str nr.normalized), true, nr.confidence, .tpin⟩])
    else (fixed, [])
  else (fixed, [])

/-- The four date-bearing keys scanned in order (validation.ts line 276). -/
def dateFields : List String := ["Date", "date", "InvoiceDate", "TransactionDate"]

/-- One date field (validation.ts lines 277-293): normalize when truthy and
overwrite in place when the normalized string differs from the raw value. -/
def dateFieldStep (today : YMD) (idx : ℕ) (r : JObj) (acc : JObj × List Issue) (f : String) :
    JObj × List Issue :=
  if truthy (jlookup r f) then
    let nr := normalizeDate today (extractPrimitive (jlookup r f))
    if strNe nr.normalized (jlookup r f) then
      (jset acc.1 f (.str nr.normalized),
       acc.2 ++ [⟨if nr.confidence = .low then .error else .info, fieldLabel f idx,
         "Date normalized to ZRA standard YYYY-MM-DD format (" ++ nr.normalized ++ ")",
         jlookup r f, some (.str nr.normalized), true, nr.confidence, .date⟩])
    else acc
  else acc

/-- Date block: the fold of `dateFieldStep` over the four keys. -/
def datesBlock (today : YMD) (idx : ℕ) (r fixed : JObj) : JObj × List Issue :=
  dateFields.foldl (dateFieldStep today idx r) (fixed, [])

/-- The VAT-rate key (validation.ts line 297). -/
def vatField (r : JObj) : String :=
  if (jlookup r "VATRate").isSome then "VATRate" else "vatRate"

/-- The out-of-range/unparseable VAT-rate fix (validation.ts lines 301-312). -/
def vatSetStandard (idx : ℕ) (r fixed : JObj) : JObj × List Issue :=
  (jset fixed (vatField r) (.num 16),
   [⟨.warning, fieldLabel (vatField r) idx, "VAT rate set to ZRA standard 16%",
     some (.str (jsStringOr (jlookup r (vatField r)) "missing")), some (.str "16"),
     true, .high, .vat⟩])

/-- VAT-rate block (validation.ts lines 296-325). -/
def vatBlock (idx : ℕ) (r fixed : JObj) : JObj × List Issue :=
  let vv := parseNumber (extractPrimitive (jlookup r (vatField r)))
  match vv with
  | none => vatSetStandard idx r fixed
  | some q =>
    if q < 0 ∨ q > 100 then vatSetStandard idx r fixed
    else if q ≠ 0 ∧ q ≠ 16 then
      (fixed,
       [⟨.info, fieldLabel (vatField r) idx,
         "Non-standard VAT rate detected (" ++ ratToString q ++
           "%). ZRA standard is 16% or 0% for exempt items",
         some (.str (ratToString q)), some (.str (ratToString q)), false, .high, .vat⟩])
    else (fixed, [])

/-- Line-item alias keys (validation.ts lines 359-360, 409). -/
def qtyFieldOf (l : JObj) : String :=
  if (jlookup l "Quantity").isSome then "Quantity" else "quantity"

/-- Unit-price alias key. -/
def priceFieldOf (l : JObj) : String :=
  if (jlookup l "UnitPrice").isSome then "UnitPrice" else "unitPrice"

/-- Line-total alias key. -/
def lineTotalFieldOf (l : JObj) : String :=
  if (jlookup l "LineTotal").isSome then "LineTotal" else "lineTotal"

/-- Property write on a line of the fixed array.  In the source the target is
always an object here: the write only runs when the quantity parsed, which
forces the record-side line (and hence its structurally identical clone) to
be an object; a strict-mode write to a primitive would throw instead. -/
def jsetLine (v : JVal) (k : String) (w : JVal) : JVal :=
  match v with
  | .obj fs => .obj (jset fs k w)
  | other => other

/-- The line view `isObject(line) ? line : {value: line}` (validation.ts
line 358). -/
def lineObjView (line : JVal) : JObj :=
  match line with
  | .obj fs => fs
  | w => [("value", w)]

/-- One line item (validation.ts lines 355-426): quantity/price sanity
issues, then the recomputed `round2(qty * unitPrice)` overwrite of the line
total when it is missing or off by more than 0.01. -/
def processLine (idx lineIndex : ℕ) (line fixedLine : JVal) : JVal × List Issue :=
  let l : JObj := lineObjView line
  let qty := parseNumber (extractPrimitive (jlookup l (qtyFieldOf l)))
  let price := parseNumber (extractPrimitive (jlookup l (priceFieldOf l)))
  let qtyIss :=
    match qty with
    | some q =>
      if q ≤ 0 then
        [⟨.error, lineLabel (qtyFieldOf l) idx lineIndex,
          "Quantity must be greater than zero per ZRA requirements",
          some (.str (ratToString q)), some (.str "MANUAL_REVIEW_REQUIRED"), false, .high,
          Category.amount⟩]
      else []
    | none => []
  let negIss :=
    match price with
    | some p =>
      if p < 0 then
        [⟨.error, lineLabel (priceFieldOf l) idx lineIndex,
          "Unit price cannot be negative per ZRA requirements",
          some (.str (ratToString p)), some (.str "MANUAL_REVIEW_REQUIRED"), false, .high,
          Category.amount⟩]
      else []
    | none => []
  let zeroIss :=
    match price with
    | some p =>
      if p = 0 then
        [⟨.warning, lineLabel (priceFieldOf l) idx lineIndex,
          "Unit price is zero. Verify this is correct for free/complimentary items",
          some (.str (ratToString p)), some (.str (ratToString p)), false, .medium,
          Category.amount⟩]
      else []
    | none => []
  let base := qtyIss ++ negIss ++ zeroIss
  match qty, price with
  | some q, some p =>
    if q > 0 ∧ p ≥ 0 then
      let calcTotal := round2 (qMul q p)
      let ltf := lineTotalFieldOf l
      let cur := parseNumber (extractPrimitive (jlookup l ltf))
      let needsFix := match cur with | none => true | some c => decide (mkRat 1 100 < qAbs (qSub c calcTotal))
      if needsFix then
        (jsetLine fixedLine ltf (.num calcTotal),
         base ++ [⟨.warning, lineLabel ltf idx lineIndex,
           "Line total recalculated: " ++ ratToString q ++ " × " ++ ratToString p ++ " = " ++
             ratToString calcTotal,
           some (.str (match cur with | some c => ratToString c | none => "null")),
           some (.str (ratToString calcTotal)), true, .high, Category.amount⟩])
      else (fixedLine, base)
    else (fixedLine, base)
  | _, _ => (fixedLine, base)

/-- The `forEach` over lines, updating the fixed-side array element-wise. -/
def processLines (idx : ℕ) : ℕ → List JVal → List JVal → List JVal × List Issue
  | _, [], fixedItems => (fixedItems, [])
  | j, line :: rest, fixedItems =>
      let fl := fixedItems.getD j .null
      let pr := processLine idx j line fl
      let next := processLines idx (j + 1) rest (fixedItems.set j pr.1)
      (next.1, pr.2 ++ next.2)

/-- Line-items block (validation.ts lines 327-451). -/
def lineItemsBlock (idx : ℕ) (r fixed : JObj) : JObj × List Issue :=
  if truthy (jlookup r "LineItems") ∨ truthy (jlookup r "lineItems") then
    let f := if truthy (jlookup r "LineItems") then "LineItems" else "lineItems"
    let li0 := jlookup r f
    let unwrapped : Option (List JVal) :=
      match li0 with
      | some (.obj fs) =>
        match jlookup fs "LineItem" with
        | some (.arr xs) => some xs
        | some w => some [w]
        | none => none
      | _ => none
    let step1 : JObj × Option JVal :=
      match unwrapped with
      | some xs =>
          (if truthy (jlookup fixed f) then jset fixed f (.arr xs) else fixed, some (.arr xs))
      | none => (fixed, li0)
    let fixed1 := step1.1
    match step1.2 with
    | some (.arr xs) =>
        let emptyIss :=
          if xs.length = 0 then
            [⟨Severity.error, fieldLabel f idx,
              "Invoice must contain at least one line item per ZRA requirements",
              some (.str "empty array"), some (.str "REQUIRED"), false, .high,
              Category.mandatory⟩]
          else []
        let fixedItems := match jlookup fixed1 f with | some (.arr ys) => ys | _ => []
        let pl := processLines idx 0 xs fixedItems
        (jset fixed1 f (.arr pl.1), emptyIss ++ pl.2)
    | some w =>
        (fixed1,
         [⟨Severity.error, fieldLabel f idx,
           "Line items must be an array per ZRA schema requirements",
           some (.str (jsTypeof w)), some (.str "REQUIRED"), false, .high, Category.schema⟩])
    | none => (fixed1, [])
  else
    (fixed,
     [⟨Severity.error, fieldLabel "LineItems" idx,
       "Invoice must contain line items per ZRA requirements",
       some (.str "missing"), some (.str "REQUIRED"), false, .high, Category.mandatory⟩])

end ZRA

namespace ZRA

/-- The taxable-amount key (validation.ts line 454). -/
def taxableField (r : JObj) : String :=
  if (jlookup r "TaxableAmount").isSome then "TaxableAmount" else "taxableAmount"

/-- The VAT-amount key (validation.ts line 455). -/
def vatAmountField (r : JObj) : String :=
  if (jlookup r "VATAmount").isSome then "VATAmount" else "vatAmount"

/-- The grand-total key (validation.ts line 456). -/
def grandTotalField (r : JObj) : String :=
  if (jlookup r "GrandTotal").isSome then "GrandTotal" else "grandTotal"

/-- The effective VAT rate used for the totals recomputation (validation.ts
line 517): `parseNumber(fixedRecord.VATRate || fixedRecord.vatRate || 16) / 100`.
A falsy stored rate (in particular the number 0) falls through to the next
alternative; an unparseable stored rate makes `parseNumber` return `null`,
and JavaScript evaluates `null / 100` to `0`. -/
def effectiveRate (fixed : JObj) : ℚ :=
  qDiv ((parseNumber (jor (jlookup fixed "VATRate") (jor (jlookup fixed "vatRate")
    (some (.num 16))))).getD 0) 100

/-- Negative-amount error issue for a totals field. -/
def negTotalsIssue (idx : ℕ) (f msg : String) (q : ℚ) : Issue :=
  ⟨.error, fieldLabel f idx, msg, some (.str (ratToString q)),
   some (.str "MANUAL_REVIEW_REQUIRED"), false, .high, .amount⟩

/-- Totals block (validation.ts lines 453-550): negativity and zero checks on
the three totals, then — when the taxable amount is known and nonnegative —
the recomputation of VAT and grand total at the effective rate, overwriting a
stored value that is missing or off by more than 0.01. -/
def totalsBlock (idx : ℕ) (r fixed : JObj) : JObj × List Issue :=
  let tf := taxableField r
  let vf := vatAmountField r
  let gf := grandTotalField r
  let taxable := parseNumber (extractPrimitive (jlookup r tf))
  let vatAmount := parseNumber (extractPrimitive (jlookup r vf))
  let grandTotal := parseNumber (extractPrimitive (jlookup r gf))
  let negT :=
    match taxable with
    | some t =>
      if t < 0 then [negTotalsIssue idx tf "Taxable amount cannot be negative per ZRA requirements" t]
      else []
    | none => []
  let negV :=
    match vatAmount with
    | some v =>
      if v < 0 then [negTotalsIssue idx vf "VAT amount cannot be negative per ZRA requirements" v]
      else []
    | none => []
  let negG :=
    match grandTotal with
    | some g =>
      if g < 0 then [negTotalsIssue idx gf "Grand total cannot be negative per ZRA requirements" g]
      else []
    | none => []
  let zeroT :=
    match taxable with
    | some t =>
      if t = 0 then
        [⟨Severity.warning, fieldLabel tf idx,
          "Taxable amount is zero. Verify this is correct for zero-rated transactions",
          some (.str (ratToString t)), some (.str (ratToString t)), false, .medium,
          Category.amount⟩]
      else []
    | none => []
  let base := negT ++ negV ++ negG ++ zeroT
  match taxable with
  | some t =>
    if t ≥ 0 then
      let rate := effectiveRate fixed
      let calcVAT := round2 (qMul t rate)
      let calcGrand := round2 (qAdd t calcVAT)
      let curVAT := parseNumber (jlookup r vf)
      let vatFixNeeded := match curVAT with | none => true | some c => decide (mkRat 1 100 < qAbs (qSub c calcVAT))
      let afterVAT : JObj × List Issue :=
        if vatFixNeeded then
          (jset fixed vf (.num calcVAT),
           [⟨Severity.warning, fieldLabel vf idx,
             "VAT amount recalculated: " ++ ratToString t ++ " × " ++ ratToString (qMul rate 100) ++
               "% = " ++ ratToString calcVAT,
             some (.str (match curVAT with | some c => ratToString c | none => "null")),
             some (.str (ratToString calcVAT)), true, .high, Category.amount⟩])
        else (fixed, [])
      let curGrand := parseNumber (jlookup r gf)
      let grandFixNeeded :=
        match curGrand with | none => true | some c => decide (mkRat 1 100 < qAbs (qSub c calcGrand))
      let afterGrand : JObj × List Issue :=
        if grandFixNeeded then
          (jset afterVAT.1 gf (.num calcGrand),
           [⟨Severity.warning, fieldLabel gf idx,
             "Grand total recalculated: " ++ ratToString t ++ " + " ++ ratToString calcVAT ++
               " = " ++ ratToString calcGrand,
             some (.str (match curGrand with | some c => ratToString c | none => "null")),
             some (.str (ratToString calcGrand)), true, .high, Category.amount⟩])
        else (afterVAT.1, [])
      (afterGrand.1, base ++ afterVAT.2 ++ afterGrand.2)
    else (fixed, base)
  | none => (fixed, base)

/-- Structural schema check (validation.ts lines 552-576). -/
def schemaBlock (idx : ℕ) (r : JObj) : List Issue :=
  let required := ["TPIN", "InvoiceNumber", "InvoiceDate"]
  let missing := required.filter (fun f =>
    ¬((jlookup r f).isSome ∨ (jlookup r (lowerAll f)).isSome ∨ (jlookup r (lowerFirst f)).isSome))
  if 0 < missing.length then
    [⟨Severity.error, fieldLabel "Schema Validation" idx,
      "Missing required fields per ZRA schema: " ++ String.intercalate ", " missing,
      some (.str "incomplete structure"), some (.str "MANUAL_REVIEW_REQUIRED"), false, .high,
      Category.schema⟩]
  else []

/-! ### Per-record processing and the batch loop -/

/-- Single-key wrapper detection (validation.ts lines 138-153 for records,
lines 114-121 at top level): a single key whose value is an object. -/
def unwrapKey (fs : JObj) : Option (String × JObj) :=
  match fs with
  | [(k, .obj inner)] => some (k, inner)
  | _ => none

/-- The body of the `records.forEach` callback applied to the unwrapped
record view `r`; the fixed record starts as the (structurally identical)
deep clone of the same view.  Returns the final fixed view, the record's
issues in emission order, and the updated dedup table. -/
def recordCore (today : YMD) (seen : Seen) (idx : ℕ) (r : JObj) :
    JObj × List Issue × Seen :=
  let mand := mandatoryIssues idx r
  let inv := invoiceBlock seen idx r
  let cur := currencyBlock idx r r
  let tp := tpinBlock idx r cur.1
  let dt := datesBlock today idx r tp.1
  let vt := vatBlock idx r dt.1
  let li := lineItemsBlock idx r vt.1
  let tot := totalsBlock idx r li.1
  let sch := schemaBlock idx r
  (tot.1, mand ++ inv.1 ++ cur.2 ++ tp.2 ++ dt.2 ++ vt.2 ++ li.2 ++ tot.2 ++ sch, inv.2)

/-- One record of the batch (validation.ts lines 132-577).  Non-object
records are wrapped in a fresh `{value: record}` object, so corrections to
them are lost from `fixedData`; a single-key object wrapper is unwrapped and
the fixes land inside it. -/
def processRecord (today : YMD) (seen : Seen) (idx : ℕ) (elem : JVal) :
    JVal × List Issue × Seen :=
  match elem with
  | .obj fs =>
    match unwrapKey fs with
    | some (k, inner) =>
        let res := recordCore today seen idx inner
        (.obj (jset fs k (.obj res.1)), res.2.1, res.2.2)
    | none =>
        let res := recordCore today seen idx fs
        (.obj res.1, res.2.1, res.2.2)
  | w =>
      let res := recordCore today seen idx [("value", w)]
      (w, res.2.1, res.2.2)

/-- The `forEach` over all records, threading the dedup table and collecting
issues in order. -/
def runRecords (today : YMD) : List JVal → ℕ → Seen → List JVal × List Issue
  | [], _, _ => ([], [])
  | e :: rest, idx, seen =>
      let res := processRecord today seen idx e
      let next := runRecords today rest (idx + 1) res.2.2
      (res.1 :: next.1, res.2.1 ++ next.2)

/-- Top-level single-root unwrap (validation.ts lines 114-121). -/
def topUnwrap (d : JVal) : JVal :=
  match d with
  | .obj fs =>
    match unwrapKey fs with
    | some (_, inner) => .obj inner
    | none => .obj fs
  | w => w

/-- `validateAndFix(data, fileType)` on a defined, JSON-representable input,
relative to the current day `today`.  The deep clone
`JSON.parse(JSON.stringify(workingData))` is the identity on the value tree
of such an input, so record and fixed record start out structurally equal.
The `fileType` argument is unused by the source function's body. -/
def validateAndFix (today : YMD) (data : JVal) (_fileType : String) : ValidationResult :=
  let workingData := match data with | .arr xs => JVal.arr xs | _ => topUnwrap data
  let records := match workingData with | .arr xs => xs | w => [w]
  let run := runRecords today records 0 []
  { isValid := (run.2.filter (fun i => i.severity = Severity.error)).length = 0
    issues := run.2
    originalData := some data
    fixedData := match data with | .arr _ => some (.arr run.1) | _ => run.1.head? }

/-- `validateAndFix` over all inputs, `undefined` included.  On `undefined`
(and any other value `JSON.stringify` maps to `undefined`) the deep-clone
step evaluates `JSON.parse(undefined)`, which coerces its argument to the
string shown and throws; on JSON-representable inputs the function returns
normally. -/
def validateAndFixJS (today : YMD) (data : Option JVal) (fileType : String) :
    Except String ValidationResult :=
  match data with
  | none => .error "SyntaxError: Unexpected token u in JSON at position 0"
  | some d => .ok (validateAndFix today d fileType)

end ZRA

namespace ZRA

/-! ### Reference-semantics model of the line-items block

The pure model above renders `fixedData` functionally.  The source, however,
manipulates heap objects: `JSON.parse(JSON.stringify(workingData))` allocates
a disjoint copy of the input, and validation.ts lines 330-338 rebind the
local `lineItems` to the **original** record's `LineItem` array (or to a
fresh one-element array holding the **original** line object) and store that
reference into `fixedRecord[lineItemsField]`.  Every later write through
`fixedLine` (line 413) then lands in the original input.  To reason about
this aliasing we give the line-items block (validation.ts lines 328-426) a
second, heap-level embedding.  Issue emission is pure and does not touch the
heap, so it is not repeated here; only the heap effects are. -/

/-- Heap-level values: scalars plus references to heap cells. -/
inductive HVal where
  | hnull : HVal
  | hbool : Bool → HVal
  | hnum : ℚ → HVal
  | hstr : String → HVal
  | href : ℕ → HVal
  deriving DecidableEq, Repr

/-- Heap cells: objects (field maps) and arrays. -/
inductive HCell where
  | hobj : List (String × HVal) → HCell
  | harr : List HVal → HCell
  deriving DecidableEq, Repr

/-- A heap: association of addresses to cells. -/
abbrev Heap := List (ℕ × HCell)

/-- Read a heap cell. -/
def hread : Heap → ℕ → Option HCell
  | [], _ => none
  | (a, c) :: rest, a' => if a = a' then some c else hread rest a'

/-- Replace a heap cell. -/
def hwrite : Heap → ℕ → HCell → Heap
  | [], a, c => [(a, c)]
  | (a', c') :: rest, a, c => if a' = a then (a, c) :: rest else (a', c') :: hwrite rest a c

/-- First address not used by the heap (allocation). -/
def hfresh (h : Heap) : ℕ := (h.map Prod.fst).foldl (fun m a => max m (a + 1)) 0

/-- Field read on a heap object. -/
def hgetField : List (String × HVal) → String → Option HVal
  | [], _ => none
  | (k, v) :: rest, k' => if k = k' then some v else hgetField rest k'

/-- Field write on a heap object. -/
def hsetField : List (String × HVal) → String → HVal → List (String × HVal)
  | [], k, v => [(k, v)]
  | (k', w) :: rest, k, v => if k' = k then (k, v) :: rest else (k', w) :: hsetField rest k v

/-- Truthiness of a heap value. -/
def htruthy (v : Option HVal) : Bool :=
  match v with
  | none => false
  | some .hnull => false
  | some (.hbool b) => b
  | some (.hnum q) => decide (q ≠ 0)
  | some (.hstr s) => decide (s ≠ "")
  | some (.href _) => true

/-- Heap-level `extractPrimitive`, restricted to the one dereference level
the line-item reads perform. -/
def hextractPrimitive (h : Heap) (v : Option HVal) : Option HVal :=
  match v with
  | some (.href a) =>
    match hread h a with
    | some (.hobj fs) =>
      match hgetField fs "#text" with
      | some t => some t
      | none =>
        match fs with
        | [(_, .href _)] => v
        | [(_, w)] => some w
        | _ => v
    | _ => v
  | w => w

/-- Heap-level `parseNumber` (scalar cases; references stringify to shapes
with no digits relevant to the claims proved here, mirrored conservatively
as object/array text). -/
def hparseNumber (h : Heap) (v : Option HVal) : Option ℚ :=
  match v with
  | some (.hnum q) => some q
  | none => none
  | some .hnull => none
  | some (.hstr s) => jsParseFloat (s.data.filter keepNumChar)
  | some (.hbool _) => none
  | some (.href a) =>
    match hread h a with
    | some (.hobj _) => none
    | _ => none

/-- Heap cell of the line object targeted by `fixedRecord[lineItemsField][j]`,
if it is an object reference. -/
def hlineObj (h : Heap) (v : HVal) : Option (ℕ × List (String × HVal)) :=
  match v with
  | .href a =>
    match hread h a with
    | some (.hobj fs) => some (a, fs)
    | _ => none
  | _ => none

/-- Alias keys on a heap-level line object. -/
def hQtyField (fs : List (String × HVal)) : String :=
  if (hgetField fs "Quantity").isSome then "Quantity" else "quantity"

/-- Unit-price alias key on a heap-level line object. -/
def hPriceField (fs : List (String × HVal)) : String :=
  if (hgetField fs "UnitPrice").isSome then "UnitPrice" else "unitPrice"

/-- Line-total alias key on a heap-level line object. -/
def hLineTotalField (fs : List (String × HVal)) : String :=
  if (hgetField fs "LineTotal").isSome then "LineTotal" else "lineTotal"

/-- Heap effect of one line of the `forEach` (validation.ts lines 355-426):
when quantity and price parse and pass the sign checks, the recomputed line
total is written through `fixedLine` — whatever object that reference
denotes after the aliasing assignment. -/
def hprocessLine (h : Heap) (fixedLine : Option HVal) (line : HVal) : Heap :=
  match hlineObj h line with
  | none => h
  | some (_, fs) =>
    let qty := hparseNumber h (hextractPrimitive h (hgetField fs (hQtyField fs)))
    let price := hparseNumber h (hextractPrimitive h (hgetField fs (hPriceField fs)))
    match qty, price with
    | some q, some p =>
      if q > 0 ∧ p ≥ 0 then
        let calcTotal := round2 (qMul q p)
        let ltf := hLineTotalField fs
        let cur := hparseNumber h (hextractPrimitive h (hgetField fs ltf))
        let needsFix := match cur with | none => true | some c => decide (mkRat 1 100 < qAbs (qSub c calcTotal))
        if needsFix then
          match fixedLine with
          | some (.href fa) =>
            match hread h fa with
            | some (.hobj ffs) => hwrite h fa (.hobj (hsetField ffs ltf (.hnum calcTotal)))
            | _ => h
          | _ => h
        else h
      else h
    | _, _ => h

/-- The `forEach` over the record-side `lineItems` array, reading each
`fixedLine` from the fixed record's (possibly aliased) array. -/
def hprocessLines (h : Heap) (fixArrAddr : ℕ) : ℕ → List HVal → Heap
  | _, [] => h
  | j, line :: rest =>
    let fixedLine :=
      match hread h fixArrAddr with
      | some (.harr ys) => ys.get? j
      | _ => none
    let h' := hprocessLine h fixedLine line
    hprocessLines h' fixArrAddr (j + 1) rest

/-- Heap effect of the line-items block (validation.ts lines 328-426) for a
record at `recA` whose fixed clone lives at `fixA`.  The wrapper unwrap is
where the aliasing arises: `lineItems` is rebound to the original `LineItem`
array, or to a **fresh array whose element is the original line object**, and
that reference is stored into the fixed record. -/
def hLineItemsBlock (h : Heap) (recA fixA : ℕ) : Heap :=
  match hread h recA with
  | some (.hobj rfs) =>
    if htruthy (hgetField rfs "LineItems") ∨ htruthy (hgetField rfs "lineItems") then
      let f := if htruthy (hgetField rfs "LineItems") then "LineItems" else "lineItems"
      let li0 := hgetField rfs f
      -- lines 332-338: unwrap `{LineItem: ...}` and reflect into the fixed record
      let unwrap : Option (HVal × Heap) :=
        match li0 with
        | some (.href wa) =>
          match hread h wa with
          | some (.hobj wfs) =>
            match hgetField wfs "LineItem" with
            | some (.href la) =>
              match hread h la with
              | some (.harr _) => some (.href la, h)
              | _ =>
                let a := hfresh h
                some (.href a, h ++ [(a, .harr [.href la])])
            | some w =>
              let a := hfresh h
              some (.href a, h ++ [(a, .harr [w])])
            | none => none
          | _ => none
        | _ => none
      match unwrap with
      | some (liRef, h1) =>
        let h2 :=
          match hread h1 fixA with
          | some (.hobj ffs) =>
            if htruthy (hgetField ffs f) then hwrite h1 fixA (.hobj (hsetField ffs f liRef))
            else h1
          | _ => h1
        match liRef with
        | .href la =>
          (match hread h2 la with
           | some (.harr xs) =>
             (match hread h2 fixA with
              | some (.hobj ffs2) =>
                (match hgetField ffs2 f with
                 | some (.href fla) => hprocessLines h2 fla 0 xs
                 | _ => h2)
              | _ => h2)
           | _ => h2)
        | _ => h2
      | none =>
        -- no wrapper: iterate the original array, fixed side is the clone
        match li0 with
        | some (.href la) =>
          (match hread h la with
           | some (.harr xs) =>
             (match hread h fixA with
              | some (.hobj ffs) =>
                (match hgetField ffs f with
                 | some (.href fla) => hprocessLines h fla 0 xs
                 | _ => h)
              | _ => h)
           | _ => h)
        | _ => h
    else h
  | _ => h

end ZRA

namespace ZRA

/-! ### Shared lemmas -/

/-- Reading a written object: the written key returns the new value, other
keys are untouched. -/
theorem jlookup_jset (o : JObj) (k : String) (v : JVal) (k' : String) :
    jlookup (jset o k v) k' = if k = k' then some v else jlookup o k' := by
  induction o with
  | nil =>
      by_cases h : k = k' <;> simp [jset, jlookup, h]
  | cons p rest ih =>
      obtain ⟨k₀, w⟩ := p
      by_cases h₀ : k₀ = k
      · subst h₀
        by_cases h : k₀ = k' <;> simp [jset, jlookup, h, ih]
      · by_cases h : k₀ = k'
        · subst h
          have : ¬k = k₀ := fun hh => h₀ hh.symm
          simp [jset, jlookup, h₀, this]
        · simp [jset, jlookup, h₀, h, ih]

/-- A filtered list is empty exactly when no member satisfies the test. -/
theorem filter_length_zero {α : Type} (l : List α) (p : α → Bool) :
    (l.filter p).length = 0 ↔ ∀ a ∈ l, ¬p a := by
  rw [List.length_eq_zero, List.filter_eq_nil_iff]

end ZRA

namespace ZRA

/-- Field accessor on a result's fixed record. -/
def fixedField (res : ValidationResult) (k : String) : Option JVal :=
  match res.fixedData with
  | some (.obj fs) => jlookup fs k
  | _ => none

/-- The record of claim C1's failing input: a fully consistent exempt
invoice — VAT rate 0, VAT amount 0, grand total equal to the taxable
amount. -/
def c1Record : JVal :=
  .obj [("InvoiceNumber", .str "INV1"), ("TPIN", .str "1234567890"),
    ("InvoiceDate", .str "2025-03-05"),
    ("TaxableAmount", .num 100), ("VATRate", .num 0), ("VATAmount", .num 0),
    ("GrandTotal", .num 100),
    ("LineItems", .arr [.obj [("Quantity", .num 1), ("UnitPrice", .num 100),
      ("LineTotal", .num 100)]])]

/-- C1: the totals recomputation does not use the fixed record's VAT rate
when that rate is 0.  On a consistent exempt invoice (rate 0, VAT 0, grand
total = taxable amount) the expression
`fixedRecord.VATRate || fixedRecord.vatRate || 16` skips the falsy stored 0
and recomputes at 16%, overwriting the correct stored VAT amount with 16 and
the correct grand total with 116 — two spurious auto-fixes where the claim
(and the spec) require none. -/
theorem c1_totals_recomputed_at_sixteen_for_exempt_rate :
    fixedField (validateAndFix ⟨2025, 6, 15⟩ c1Record "json") "VATAmount" = some (.num 16) ∧
    fixedField (validateAndFix ⟨2025, 6, 15⟩ c1Record "json") "GrandTotal" = some (.num 116) ∧
    fixedField (validateAndFix ⟨2025, 6, 15⟩ c1Record "json") "VATRate" = some (.num 0) ∧
    ((validateAndFix ⟨2025, 6, 15⟩ c1Record "json").issues.filter
        (fun i => decide (i.category = Category.amount))).map
      (fun i => (i.field, i.severity, i.autoFixed, i.fixedValue)) =
      [("VATAmount (Record 1)", Severity.warning, true, some (.str "16")),
       ("GrandTotal (Record 1)", Severity.warning, true, some (.str "116"))] :=
  ⟨rfl, rfl, rfl, rfl⟩

/-- The line object of claim C2's failing input. -/
def c2LineObj : HCell := .hobj [("Quantity", .hnum 2), ("UnitPrice", .hnum 10)]

/-- The initial heap for claim C2: the decoded input
`{LineItems: {LineItem: {Quantity: 2, UnitPrice: 10}}}` at address 1 (its
line object at address 3) and its `JSON.parse(JSON.stringify(...))` deep
clone at address 4 (its line object at address 6). -/
def c2Heap : Heap :=
  [(1, .hobj [("LineItems", .href 2)]), (2, .hobj [("LineItem", .href 3)]), (3, c2LineObj),
   (4, .hobj [("LineItems", .href 5)]), (5, .hobj [("LineItem", .href 6)]), (6, c2LineObj)]

/-- C2: `validateAndFix` mutates its input on the XML single-child wrapper
shape.  Running the line-items block on the heap above writes the
recalculated line total into the **original** input's line object (address
3), because the unwrap code stores a reference to the original line into the
fixed record (whose line-items field afterwards aliases the input, address 7
holding `[href 3]`), while the clone's own line object (address 6) stays
untouched. -/
theorem c2_input_line_object_mutated :
    hread (hLineItemsBlock c2Heap 1 4) 3 =
      some (.hobj [("Quantity", .hnum 2), ("UnitPrice", .hnum 10), ("lineTotal", .hnum 20)]) ∧
    hread c2Heap 3 = some c2LineObj ∧
    hread (hLineItemsBlock c2Heap 1 4) 6 = some c2LineObj ∧
    hread (hLineItemsBlock c2Heap 1 4) 4 = some (.hobj [("LineItems", .href 7)]) ∧
    hread (hLineItemsBlock c2Heap 1 4) 7 = some (.harr [.href 3]) := by
  refine ⟨by decide, rfl, by decide, by decide, by decide⟩

end ZRA

namespace ZRA

/-- C8 counterexample: on `undefined` the deep-clone step throws instead of
returning a `ValidationResult` — `JSON.stringify(undefined)` is `undefined`
and `JSON.parse(undefined)` coerces its argument to the string `"undefined"`
and raises a `SyntaxError`. -/
theorem c8_undefined_input_throws :
    validateAndFixJS ⟨2025, 6, 15⟩ none "json" =
      .error "SyntaxError: Unexpected token u in JSON at position 0" := rfl

/-- C8 amended: on every defined, JSON-representable payload — null, scalar,
array or object, however malformed — `validateAndFix` returns a
`ValidationResult` and never throws. -/
theorem c8_total_on_defined_inputs (today : YMD) (v : JVal) (ft : String) :
    ∃ r, validateAndFixJS today (some v) ft = .ok r :=
  ⟨validateAndFix today v ft, rfl⟩

/-- The character set claim C9 says the cleaning step keeps: digits, `.`
and `-` (without `^`). -/
def claimedKeepChar (c : Char) : Bool :=
  isDigitChar c ∨ c = '.' ∨ c = '-'

/-- C9 counterexample: on `"12^3"` the cleaning regex `/[^^\d.-]/g` keeps
the caret (its character class holds a second, literal `^`), so `parseFloat`
stops at the caret and yields 12; stripping the caret as the claim states
would yield 123. -/
theorem c9_caret_is_kept_not_stripped :
    parseNumber (some (.str "12^3")) = some 12 ∧
    jsParseFloat ((jsString (.str "12^3")).data.filter claimedKeepChar) = some 123 ∧
    (12 : ℚ) ≠ 123 := by
  refine ⟨rfl, rfl, by norm_num⟩

/-- The amended description of `parseNumber`: numbers pass through; `null`
and `undefined` give `null`; every other value is stringified and stripped
of all characters except digits, `.`, `-` **and `^`** (kept by the second
caret in the character class), and the remainder is read by `parseFloat`,
which parses the longest numeric prefix — so a kept caret ends the number at
that point rather than disappearing. -/
def parseNumberAmendedSpec (v : Option JVal) : Option ℚ :=
  match v with
  | some (.num q) => some q
  | none => none
  | some .null => none
  | some w =>
      jsParseFloat ((jsString w).data.filter
        (fun c => isDigitChar c ∨ c = '.' ∨ c = '-' ∨ c = '^'))

/-- C9 amended: `parseNumber` implements the amended description, keeping
`^` in the cleaned text; in particular `"12^3"` parses to 12 and a leading
caret makes the input non-numeric. -/
theorem c9_parseNumber_amended :
    (∀ v, parseNumber v = parseNumberAmendedSpec v) ∧
    parseNumber (some (.str "12^3")) = some 12 ∧
    parseNumber (some (.str "^5")) = none := by
  refine ⟨fun v => ?_, rfl, rfl⟩
  match v with
  | none => rfl
  | some .null => rfl
  | some (.num q) => rfl
  | some (.bool b) => rfl
  | some (.str s) => rfl
  | some (.arr xs) => rfl
  | some (.obj fs) => rfl

end ZRA

namespace ZRA

/-- Claim C5's description of `normalizeTaxpayerId`: coerce the input to
text, strip all non-digit characters, then branch on how many digits remain
— 10 unchanged/high, 9 left-padded/medium, more than 10 truncated/medium,
6 to 8 right-padded/low, otherwise the sentinel, low. -/
def normalizeTaxpayerIdSpec (v : Option JVal) : NormRes :=
  let text := match v with | none => "undefined" | some .null => "null" | some w => tpinText w
  let cleaned := text.data.filter isDigitChar
  if cleaned.length = 10 then ⟨String.mk cleaned, .high⟩
  else if cleaned.length = 9 then ⟨"0" ++ String.mk cleaned, .medium⟩
  else if cleaned.length > 10 then ⟨String.mk (cleaned.take 10), .medium⟩
  else if 6 ≤ cleaned.length ∧ cleaned.length ≤ 8 then
    ⟨String.mk (cleaned ++ List.replicate (10 - cleaned.length) '0'), .low⟩
  else ⟨"0000000000", .low⟩

/-- Case bridge for the fourth branch: after excluding lengths 10, 9 and
more than 10, the source's `length >= 6` test coincides with the claim's
"6 to 8" range. -/
theorem tpinBranchCase {α : Sort _} (n : ℕ) (A B C D E : α) :
    (if n = 10 then A else if n = 9 then B else if n > 10 then C
     else if n ≥ 6 then D else E) =
    (if n = 10 then A else if n = 9 then B else if n > 10 then C
     else if 6 ≤ n ∧ n ≤ 8 then D else E) := by
  by_cases h1 : n = 10
  · simp [h1]
  · by_cases h2 : n = 9
    · simp [h1, h2]
    · by_cases h3 : n > 10
      · simp [h1, h2, h3]
      · by_cases h4 : n ≥ 6
        · have h5 : 6 ≤ n ∧ n ≤ 8 := ⟨h4, by omega⟩
          simp [h1, h2, h3, h4, h5]
        · have h5 : ¬(6 ≤ n ∧ n ≤ 8) := by omega
          simp [h1, h2, h3, h4, h5]

/-- C5: `normalizeTpin` computes exactly the claimed case split, and is
idempotent on valid 10-digit strings, which it returns unchanged with high
confidence. -/
theorem c5_normalizeTpin_matches_spec :
    (∀ v, normalizeTpin v = normalizeTaxpayerIdSpec v) ∧
    (∀ s : String, s.data.length = 10 → s.data.all isDigitChar →
      normalizeTpin (some (.str s)) = ⟨s, .high⟩) := by
  constructor
  · intro v
    match v with
    | none => rfl
    | some .null => rfl
    | some (.bool b) =>
        simp only [normalizeTpin, normalizeTaxpayerIdSpec]
        exact tpinBranchCase _ _ _ _ _ _
    | some (.num q) =>
        simp only [normalizeTpin, normalizeTaxpayerIdSpec]
        exact tpinBranchCase _ _ _ _ _ _
    | some (.str s) =>
        simp only [normalizeTpin, normalizeTaxpayerIdSpec]
        exact tpinBranchCase _ _ _ _ _ _
    | some (.arr xs) =>
        simp only [normalizeTpin, normalizeTaxpayerIdSpec]
        exact tpinBranchCase _ _ _ _ _ _
    | some (.obj fs) =>
        simp only [normalizeTpin, normalizeTaxpayerIdSpec]
        exact tpinBranchCase _ _ _ _ _ _
  · intro s hlen hdig
    have hfil : s.data.filter isDigitChar = s.data := List.filter_eq_self.mpr (by
      intro a ha
      exact List.all_eq_true.mp hdig a ha)
    simp only [normalizeTpin, tpinText, hfil, hlen]
    rfl

/-- C5 witness: the spec equation at a concrete mixed input, and idempotency
at the concrete valid TPIN `"1234567890"`. -/
theorem c5_normalizeTpin_matches_spec_witness :
    normalizeTpin (some (.str "TPIN: 123456789")) =
      normalizeTaxpayerIdSpec (some (.str "TPIN: 123456789")) ∧
    normalizeTpin (some (.str "1234567890")) = ⟨"1234567890", .high⟩ :=
  ⟨c5_normalizeTpin_matches_spec.1 (some (.str "TPIN: 123456789")),
   c5_normalizeTpin_matches_spec.2 "1234567890" (by decide) (by decide)⟩

end ZRA

namespace ZRA

/-- C3: the result of `validateAndFix` is valid exactly when no issue of the
run has severity `error`. -/
theorem c3_isValid_iff_no_error (today : YMD) (d : Option JVal) (ft : String)
    (r : ValidationResult) (h : validateAndFixJS today d ft = .ok r) :
    r.isValid = true ↔ ∀ i ∈ r.issues, i.severity ≠ Severity.error := by
  match d with
  | none => exact absurd h (by simp [validateAndFixJS])
  | some v =>
    have hr : r = validateAndFix today v ft := by
      have := h
      simp only [validateAndFixJS, Except.ok.injEq] at this
      exact this.symm
    subst hr
    simp only [validateAndFix, decide_eq_true_eq]
    rw [filter_length_zero]
    constructor
    · intro hall i hi hsev
      exact hall i hi (by simp [hsev])
    · intro hall i hi
      simp only [decide_eq_true_eq]
      exact hall i hi

/-- C3 witness: the equivalence at a concrete scalar payload. -/
theorem c3_isValid_iff_no_error_witness :
    (validateAndFix ⟨2025, 6, 15⟩ (.num 5) "json").isValid = true ↔
      ∀ i ∈ (validateAndFix ⟨2025, 6, 15⟩ (.num 5) "json").issues,
        i.severity ≠ Severity.error :=
  c3_isValid_iff_no_error ⟨2025, 6, 15⟩ (some (.num 5)) "json" _ rfl

end ZRA

namespace ZRA

/-- Length of the branch result for a cleaned digit list. -/
theorem normalizeTpinLengthAux (cleaned : List Char) :
    (if cleaned.length = 10 then (⟨String.mk cleaned, .high⟩ : NormRes)
     else if cleaned.length = 9 then ⟨"0" ++ String.mk cleaned, .medium⟩
     else if cleaned.length > 10 then ⟨String.mk (cleaned.take 10), .medium⟩
     else if cleaned.length ≥ 6 then
       ⟨String.mk (cleaned ++ List.replicate (10 - cleaned.length) '0'), .low⟩
     else ⟨"0000000000", .low⟩).normalized.length = 10 := by
  by_cases h1 : cleaned.length = 10
  · simp [h1, String.length]
  · by_cases h2 : cleaned.length = 9
    · simp [h1, h2, String.length]
    · by_cases h3 : cleaned.length > 10
      · simp [h1, h2, h3, String.length]
        omega
      · by_cases h4 : cleaned.length ≥ 6
        · simp [h1, h2, h3, h4, String.length]
          omega
        · simp [h1, h2, h3, h4]
          rfl

/-- The normalized TPIN always has exactly 10 characters. -/
theorem normalizeTpin_length (v : Option JVal) :
    (normalizeTpin v).normalized.length = 10 := by
  match v with
  | none => rfl
  | some .null => rfl
  | some (.bool b) => exact normalizeTpinLengthAux _
  | some (.num q) => exact normalizeTpinLengthAux _
  | some (.str s) => exact normalizeTpinLengthAux _
  | some (.arr xs) => exact normalizeTpinLengthAux _
  | some (.obj fs) => exact normalizeTpinLengthAux _

end ZRA

namespace ZRA

/-- C10: when the TPIN alias holds a number, the strict comparison
`normalized !== tpinValue` is between a string and a number and therefore
always true, so the TPIN rule always rewrites the field to the 10-digit
string form and emits a tpin-category auto-fixed issue — even when the
number's digits already form a valid TPIN. -/
theorem c10_numeric_tpin_always_fixed (idx : ℕ) (r fixed : JObj) (q : ℚ)
    (h : extractPrimitive (jlookup r (tpinField r)) = some (.num q)) :
    tpinBlock idx r fixed =
      (jset fixed (tpinField r) (.str (normalizeTpin (some (.num q))).normalized),
       [⟨if (normalizeTpin (some (.num q))).confidence = .low then .error else .warning,
         fieldLabel (tpinField r) idx,
         "TPIN normalized to ZRA 10-digit format (" ++
           (normalizeTpin (some (.num q))).normalized ++ ")",
         some (.num q), some (.str (normalizeTpin (some (.num q))).normalized), true,
         (normalizeTpin (some (.num q))).confidence, .tpin⟩]) ∧
    (normalizeTpin (some (.num q))).normalized.length = 10 := by
  have hpres : ((jlookup r "TPIN").isSome ∨ (jlookup r "tpin").isSome ∨
      (jlookup r "TaxpayerTIN").isSome) := by
    by_cases h1 : (jlookup r "TPIN").isSome
    · exact Or.inl h1
    · by_cases h2 : (jlookup r "tpin").isSome
      · exact Or.inr (Or.inl h2)
      · refine Or.inr (Or.inr ?_)
        by_contra h3
        have hf : tpinField r = "TaxpayerTIN" := by simp [tpinField, h1, h2]
        rw [hf] at h
        rcases hnone : jlookup r "TaxpayerTIN" with _ | w
        · rw [hnone] at h
          simp [extractPrimitive] at h
        · exact h3 (by simp [hnone])
  refine ⟨?_, normalizeTpin_length _⟩
  rw [tpinBlock, if_pos hpres]
  simp only [h]
  rfl

/-- C10 witness: a record whose `TPIN` field holds the number 1234567890 —
already ten digits — still gets the string form written and a tpin issue. -/
theorem c10_numeric_tpin_always_fixed_witness :
    tpinBlock 0 [("TPIN", .num 1234567890)] [("TPIN", .num 1234567890)] =
      (jset [("TPIN", .num 1234567890)] "TPIN"
        (.str (normalizeTpin (some (.num 1234567890))).normalized),
       [⟨if (normalizeTpin (some (.num 1234567890))).confidence = .low then .error else .warning,
         fieldLabel "TPIN" 0,
         "TPIN normalized to ZRA 10-digit format (" ++
           (normalizeTpin (some (.num 1234567890))).normalized ++ ")",
         some (.num 1234567890), some (.str (normalizeTpin (some (.num 1234567890))).normalized),
         true, (normalizeTpin (some (.num 1234567890))).confidence, .tpin⟩]) ∧
    (normalizeTpin (some (.num 1234567890))).normalized.length = 10 :=
  c10_numeric_tpin_always_fixed 0 [("TPIN", .num 1234567890)] [("TPIN", .num 1234567890)]
    1234567890 rfl

end ZRA

namespace ZRA

/-- A write changes at most its own key. -/
theorem jset_changed_key (o : JObj) (k0 : String) (v : JVal) (k : String)
    (h : jlookup (jset o k0 v) k ≠ jlookup o k) : k = k0 := by
  by_cases hk : k0 = k
  · exact hk.symm
  · exact absurd (by rw [jlookup_jset, if_neg hk]) h

/-- The record of claim C4's counterexample: the `Currency` alias is present
but empty, so the currency value is read from `CurrencyCode`. -/
def c4Record : JVal :=
  .obj [("InvoiceNumber", .str "I2"), ("Currency", .str ""), ("CurrencyCode", .str "USD")]

/-- C4 counterexample: the currency value `"USD"` is read from the
`CurrencyCode` alias (it is the issue's original value), yet the correction
is written under `Currency` — the earlier-priority alias that was present
with an empty value — while `CurrencyCode` keeps `"USD"`. -/
theorem c4_currency_written_under_other_alias :
    fixedField (validateAndFix ⟨2025, 6, 15⟩ c4Record "json") "Currency" =
      some (.str "ZMW") ∧
    fixedField (validateAndFix ⟨2025, 6, 15⟩ c4Record "json") "CurrencyCode" =
      some (.str "USD") ∧
    fixedField (validateAndFix ⟨2025, 6, 15⟩ c4Record "json") "currency" = none ∧
    ((validateAndFix ⟨2025, 6, 15⟩ c4Record "json").issues.filter
        (fun i => decide (i.category = Category.currency))).map
      (fun i => (i.field, i.originalValue, i.fixedValue)) =
      [("Currency (Record 1)", some (.str "USD"), some (.str "ZMW"))] :=
  ⟨rfl, rfl, rfl, rfl⟩

end ZRA

namespace ZRA

/-- A currency write lands on `currencyFieldName` (the first present alias)
or, for an absent currency, on the literal key `Currency`. -/
theorem currencyBlock_changed_key (idx : ℕ) (r fixed : JObj) (k : String)
    (h : jlookup (currencyBlock idx r fixed).1 k ≠ jlookup fixed k) :
    k = currencyFieldName r ∨ k = "Currency" := by
  simp only [currencyBlock, currencyMissing] at h
  split at h
  · split at h
    · split at h
      · exact Or.inl (jset_changed_key _ _ _ _ h)
      · exact absurd rfl h
    · exact absurd rfl h
  · exact Or.inr (jset_changed_key _ _ _ _ h)

/-- A TPIN write lands on `tpinField`. -/
theorem tpinBlock_changed_key (idx : ℕ) (r fixed : JObj) (k : String)
    (h : jlookup (tpinBlock idx r fixed).1 k ≠ jlookup fixed k) :
    k = tpinField r := by
  simp only [tpinBlock] at h
  split at h
  · split at h
    · exact jset_changed_key _ _ _ _ h
    · exact absurd rfl h
  · exact absurd rfl h

/-- A VAT-rate write lands on `vatField`. -/
theorem vatBlock_changed_key (idx : ℕ) (r fixed : JObj) (k : String)
    (h : jlookup (vatBlock idx r fixed).1 k ≠ jlookup fixed k) :
    k = vatField r := by
  simp only [vatBlock, vatSetStandard] at h
  split at h
  · exact jset_changed_key _ _ _ _ h
  · split at h
    · exact jset_changed_key _ _ _ _ h
    · split at h
      · exact absurd rfl h
      · exact absurd rfl h

/-- One date step writes at most the key it read a truthy value from. -/
theorem dateFieldStep_changed_key (today : YMD) (idx : ℕ) (r : JObj)
    (acc : JObj × List Issue) (f k : String)
    (h : jlookup (dateFieldStep today idx r acc f).1 k ≠ jlookup acc.1 k) :
    k = f ∧ truthy (jlookup r f) = true := by
  simp only [dateFieldStep] at h
  split at h
  · split at h
    · exact ⟨jset_changed_key _ _ _ _ h, by assumption⟩
    · exact absurd rfl h
  · exact absurd rfl h

/-- The date fold writes only at date keys holding a truthy value. -/
theorem datesFold_changed_key (today : YMD) (idx : ℕ) (r : JObj)
    (fields : List String) (acc : JObj × List Issue) (k : String)
    (h : jlookup (fields.foldl (dateFieldStep today idx r) acc).1 k ≠ jlookup acc.1 k) :
    k ∈ fields ∧ truthy (jlookup r k) = true := by
  induction fields generalizing acc with
  | nil => exact absurd rfl h
  | cons f rest ih =>
      rw [List.foldl_cons] at h
      by_cases hmid :
          jlookup (dateFieldStep today idx r acc f).1 k = jlookup acc.1 k
      · have hrest := ih (dateFieldStep today idx r acc f) (by
          intro heq
          exact h (heq.trans hmid))
        exact ⟨List.mem_cons_of_mem _ hrest.1, hrest.2⟩
      · have hstep := dateFieldStep_changed_key today idx r acc f k hmid
        exact ⟨hstep.1 ▸ List.mem_cons_self _ _, hstep.1 ▸ hstep.2⟩

/-- A date write lands on one of the four date keys, the one whose value was
read. -/
theorem datesBlock_changed_key (today : YMD) (idx : ℕ) (r fixed : JObj) (k : String)
    (h : jlookup (datesBlock today idx r fixed).1 k ≠ jlookup fixed k) :
    k ∈ dateFields ∧ truthy (jlookup r k) = true :=
  datesFold_changed_key today idx r dateFields (fixed, []) k h

/-- Two writes change at most their two keys. -/
theorem jset2_changed_key (o : JObj) (k1 : String) (v1 : JVal) (k2 : String) (v2 : JVal)
    (k : String) (h : jlookup (jset (jset o k1 v1) k2 v2) k ≠ jlookup o k) :
    k = k1 ∨ k = k2 := by
  by_cases h2 : k2 = k
  · exact Or.inr h2.symm
  · rw [jlookup_jset, if_neg h2] at h
    exact Or.inl (jset_changed_key _ _ _ _ h)

/-- A totals write lands on the VAT-amount key or the grand-total key. -/
theorem totalsBlock_changed_key (idx : ℕ) (r fixed : JObj) (k : String)
    (h : jlookup (totalsBlock idx r fixed).1 k ≠ jlookup fixed k) :
    k = vatAmountField r ∨ k = grandTotalField r := by
  simp only [totalsBlock] at h
  split at h
  · split at h
    · split at h <;> split at h <;> simp only at h
      · exact jset2_changed_key _ _ _ _ _ _ h
      · exact Or.inr (jset_changed_key _ _ _ _ h)
      · exact Or.inl (jset_changed_key _ _ _ _ h)
      · exact absurd rfl h
    · exact absurd rfl h
  · exact absurd rfl h

end ZRA

namespace ZRA

/-- Property read on a value that may or may not be an object. -/
def objLookup (v : JVal) (k : String) : Option JVal :=
  match v with
  | .obj fs => jlookup fs k
  | _ => none

/-- A `jsetLine` write changes at most its key. -/
theorem jsetLine_changed_key (fl : JVal) (k0 : String) (v : JVal) (k : String)
    (h : objLookup (jsetLine fl k0 v) k ≠ objLookup fl k) : k = k0 := by
  match fl with
  | .obj fs => exact jset_changed_key _ _ _ _ h
  | .null => exact absurd rfl h
  | .bool b => exact absurd rfl h
  | .num q => exact absurd rfl h
  | .str s => exact absurd rfl h
  | .arr xs => exact absurd rfl h

/-- A line-total write lands on the line-total alias key of the line it was
read from. -/
theorem processLine_changed_key (idx j : ℕ) (line fl : JVal) (k : String)
    (h : objLookup (processLine idx j line fl).1 k ≠ objLookup fl k) :
    k = lineTotalFieldOf (lineObjView line) := by
  simp only [processLine] at h
  split at h
  · split at h
    · split at h
      · exact jsetLine_changed_key _ _ _ _ h
      · exact absurd rfl h
    · exact absurd rfl h
  · exact absurd rfl h

/-- C4 amended: every corrected value is written under the resolved alias
key of the field it belongs to — for TPIN, VAT rate, dates, line totals and
totals that key is exactly the key the value was read from; for currency the
write goes to the first alias key that is present (`!== undefined`), which
is the alias the value was read from except when an earlier-priority alias
is present holding an empty (falsy) value, and a wholly absent currency is
inserted under the literal key `Currency`. -/
theorem c4_writes_under_resolved_alias :
    (∀ idx r fixed k, jlookup (currencyBlock idx r fixed).1 k ≠ jlookup fixed k →
        k = currencyFieldName r ∨ k = "Currency") ∧
    (∀ idx r fixed k, jlookup (tpinBlock idx r fixed).1 k ≠ jlookup fixed k →
        k = tpinField r) ∧
    (∀ idx r fixed k, jlookup (vatBlock idx r fixed).1 k ≠ jlookup fixed k →
        k = vatField r) ∧
    (∀ today idx r fixed k, jlookup (datesBlock today idx r fixed).1 k ≠ jlookup fixed k →
        k ∈ dateFields ∧ truthy (jlookup r k) = true) ∧
    (∀ idx r fixed k, jlookup (totalsBlock idx r fixed).1 k ≠ jlookup fixed k →
        k = vatAmountField r ∨ k = grandTotalField r) ∧
    (∀ idx j line fl k, objLookup (processLine idx j line fl).1 k ≠ objLookup fl k →
        k = lineTotalFieldOf (lineObjView line)) :=
  ⟨currencyBlock_changed_key, tpinBlock_changed_key, vatBlock_changed_key,
   datesBlock_changed_key, totalsBlock_changed_key, processLine_changed_key⟩

/-- C4 amended witness: on the counterexample record the currency write
changes exactly the key `Currency`, the first present alias. -/
theorem c4_writes_under_resolved_alias_witness :
    "Currency" = currencyFieldName [("Currency", JVal.str ""), ("CurrencyCode", JVal.str "USD")] ∨
      "Currency" = "Currency" :=
  c4_writes_under_resolved_alias.1 0
    [("Currency", JVal.str ""), ("CurrencyCode", JVal.str "USD")]
    [("Currency", JVal.str ""), ("CurrencyCode", JVal.str "USD")] "Currency"
    (by
      intro heq
      have h1 : jlookup (currencyBlock 0
          [("Currency", JVal.str ""), ("CurrencyCode", JVal.str "USD")]
          [("Currency", JVal.str ""), ("CurrencyCode", JVal.str "USD")]).1 "Currency" =
          some (.str "ZMW") := rfl
      have h2 : jlookup [("Currency", JVal.str ""), ("CurrencyCode", JVal.str "USD")]
          "Currency" = some (.str "") := rfl
      rw [h1, h2] at heq
      simp only [Option.some.injEq, JVal.str.injEq] at heq
      exact absurd heq (by decide))

end ZRA

namespace ZRA

/-- C6 counterexample: `"1/5/2023"` is a day-first slash date with a 1-digit
day denoting the valid past date 2023-05-01, but the slash pattern requires
exactly two day digits (`^(\d{2})\/(\d{1,2})\/(\d{4})$`), so no pattern
matches and `normalizeDate` falls back to the current date with low
confidence instead of returning `⟨"2023-05-01", high⟩`. -/
theorem c6_one_digit_slash_day_rejected :
    normalizeDate ⟨2024, 6, 15⟩ (some (.str "1/5/2023")) = ⟨"2024-06-15", .low⟩ ∧
    (⟨"2024-06-15", .low⟩ : NormRes) ≠ ⟨"2023-05-01", .high⟩ :=
  ⟨rfl, by decide⟩

/-- Dropping while a predicate fails everywhere keeps the list. -/
theorem dropWhile_eq_self_of_all_false {p : Char → Bool} (l : List Char)
    (h : ∀ c ∈ l, p c = false) : l.dropWhile p = l := by
  cases l with
  | nil => rfl
  | cons c rest =>
      rw [List.dropWhile_cons, h c (List.mem_cons_self _ _)]
      simp

/-- Trimming a string with no whitespace is the identity. -/
theorem jsTrim_of_no_ws (l : List Char) (h : ∀ c ∈ l, isWsChar c = false) :
    jsTrim (String.mk l) = String.mk l := by
  simp only [jsTrim]
  rw [dropWhile_eq_self_of_all_false l h,
    dropWhile_eq_self_of_all_false l.reverse (by
      intro c hc
      exact h c (List.mem_reverse.mp hc)),
    List.reverse_reverse]

/-- `splitSep` never returns the empty list of groups. -/
theorem splitSep_ne_nil (sep : Char) (l : List Char) : splitSep sep l ≠ [] := by
  cases l with
  | nil => simp [splitSep]
  | cons c rest =>
      simp only [splitSep]
      match splitSep sep rest with
      | [] => simp
      | g :: gs =>
          by_cases h : c = sep <;> simp [h]

/-- Splitting a separator-free list yields one group. -/
theorem splitSep_not_mem (sep : Char) (l : List Char) (h : sep ∉ l) :
    splitSep sep l = [l] := by
  induction l with
  | nil => rfl
  | cons c rest ih =>
      have hc : ¬c = sep := fun hh => h (hh ▸ List.mem_cons_self _ _)
      have hr : sep ∉ rest := fun hh => h (List.mem_cons_of_mem _ hh)
      simp only [splitSep, ih hr]
      simp [hc]

/-- Splitting peels off a separator-free prefix as the first group. -/
theorem splitSep_peel_first (sep : Char) (a rest : List Char) (h : sep ∉ a) :
    splitSep sep (a ++ sep :: rest) = a :: splitSep sep rest := by
  induction a with
  | nil =>
      simp only [List.nil_append, splitSep]
      cases hsr : splitSep sep rest with
      | nil => exact absurd hsr (splitSep_ne_nil sep rest)
      | cons g gs => simp
  | cons c a' ih =>
      have hc : ¬c = sep := fun hh => h (hh ▸ List.mem_cons_self _ _)
      have ha : sep ∉ a' := fun hh => h (List.mem_cons_of_mem _ hh)
      simp only [List.cons_append, splitSep, List.append_eq]
      rw [ih ha]
      simp [hc]

/-- A digit is none of the three date separators. -/
theorem sep_not_mem_digits (sep : Char) (l : List Char)
    (hl : l.all isDigitChar = true) (hsep : isDigitChar sep = false) : sep ∉ l := by
  intro hmem
  have hd := List.all_eq_true.mp hl sep hmem
  rw [hd] at hsep
  exact Bool.noConfusion hsep

end ZRA

namespace ZRA

/-- A digit character is not whitespace. -/
theorem digit_not_ws (c : Char) (h : isDigitChar c = true) : isWsChar c = false := by
  simp only [isDigitChar, decide_eq_true_eq] at h
  simp only [isWsChar, decide_eq_false_iff_not]
  rintro (rfl | rfl | rfl | rfl | rfl | rfl) <;> exact absurd h (by decide)

/-- Evaluation of `normalizeDate` when a format matches and the date passes
all checks. -/
theorem normalizeDate_format_hit (today : YMD) (sv ys ms ds : List Char)
    (hnws : ∀ c ∈ sv, isWsChar c = false)
    (hmatch : firstDateMatch sv = some (ys, ms, ds))
    (hvalid : validYMD (decodeDigits ys) (decodeDigits ms) (decodeDigits ds) = true)
    (hpast : ymdLE ⟨decodeDigits ys, decodeDigits ms, decodeDigits ds⟩ today = true)
    (hy1 : 2000 ≤ decodeDigits ys) (hy2 : decodeDigits ys ≤ today.year + 1) :
    normalizeDate today (some (.str (String.mk sv))) =
      ⟨String.mk ys ++ "-" ++ String.mk (padZerosTo 2 ms) ++ "-" ++ String.mk (padZerosTo 2 ds),
       .high⟩ := by
  simp only [normalizeDate, dateText, jsTrim_of_no_ws sv hnws]
  rw [hmatch]
  simp [hvalid, hpast, hy1, hy2]

end ZRA

namespace ZRA

/-- C6 amended: a day-first date whose day field has exactly two digits for
the slash separator (one or two digits for dash and dot), whose month has
one or two digits and year four, and which denotes a valid calendar date not
after the current day with year in `[2000, year+1]`, normalizes to the
zero-padded day-first ISO form with high confidence. -/
theorem c6_day_first_formats_amended (today : YMD) (sep : Char) (ds ms ys : List Char)
    (hsep : sep = '/' ∨ sep = '-' ∨ sep = '.')
    (hds : ds.all isDigitChar = true) (hms : ms.all isDigitChar = true)
    (hys : ys.all isDigitChar = true)
    (hdsl : 1 ≤ ds.length ∧ ds.length ≤ 2) (hdslash : sep = '/' → ds.length = 2)
    (hmsl : 1 ≤ ms.length ∧ ms.length ≤ 2) (hysl : ys.length = 4)
    (hvalid : validYMD (decodeDigits ys) (decodeDigits ms) (decodeDigits ds) = true)
    (hpast : ymdLE ⟨decodeDigits ys, decodeDigits ms, decodeDigits ds⟩ today = true)
    (hy1 : 2000 ≤ decodeDigits ys) (hy2 : decodeDigits ys ≤ today.year + 1) :
    normalizeDate today (some (.str (String.mk (ds ++ sep :: (ms ++ sep :: ys))))) =
      ⟨String.mk ys ++ "-" ++ String.mk (padZerosTo 2 ms) ++ "-" ++ String.mk (padZerosTo 2 ds),
       .high⟩ := by
  have hsepd : isDigitChar sep = false := by
    rcases hsep with rfl | rfl | rfl <;> decide
  have hmemL : ∀ c, c ∈ ds ++ sep :: (ms ++ sep :: ys) →
      isDigitChar c = true ∨ c = sep := by
    intro c hc
    simp only [List.mem_append, List.mem_cons] at hc
    rcases hc with h | h | h | h | h
    · exact Or.inl (List.all_eq_true.mp hds c h)
    · exact Or.inr h
    · exact Or.inl (List.all_eq_true.mp hms c h)
    · exact Or.inr h
    · exact Or.inl (List.all_eq_true.mp hys c h)
  have hnws : ∀ c ∈ ds ++ sep :: (ms ++ sep :: ys), isWsChar c = false := by
    intro c hc
    rcases hmemL c hc with h | rfl
    · exact digit_not_ws c h
    · rcases hsep with rfl | rfl | rfl <;> decide
  have hother : ∀ c : Char, isDigitChar c = false → c ≠ sep →
      c ∉ ds ++ sep :: (ms ++ sep :: ys) := by
    intro c hcd hcs hmem
    rcases hmemL c hmem with h | h
    · rw [h] at hcd
      exact Bool.noConfusion hcd
    · exact hcs h
  have hsplit : splitSep sep (ds ++ sep :: (ms ++ sep :: ys)) = [ds, ms, ys] := by
    rw [splitSep_peel_first sep ds _ (sep_not_mem_digits sep ds hds hsepd),
      splitSep_peel_first sep ms _ (sep_not_mem_digits sep ms hms hsepd),
      splitSep_not_mem sep ys (sep_not_mem_digits sep ys hys hsepd)]
  refine normalizeDate_format_hit today _ ys ms ds hnws ?_ hvalid hpast hy1 hy2
  have hgm : digitGroup 1 2 ms = true := by
    simp only [digitGroup, Bool.decide_and, Bool.and_eq_true, decide_eq_true_eq]
    exact ⟨hms, hmsl.1, hmsl.2⟩
  have hgy : digitGroup 4 4 ys = true := by
    simp only [digitGroup, Bool.decide_and, Bool.and_eq_true, decide_eq_true_eq]
    exact ⟨hys, by omega, by omega⟩
  rcases hsep with rfl | rfl | rfl
  · -- slash: the year-first dash matcher sees no dash, the slash day-first
    -- matcher fires with the two-digit day
    have hdash := splitSep_not_mem '-' _ (hother '-' (by decide) (by decide))
    have hgd : digitGroup 2 2 ds = true := by
      have hlen := hdslash rfl
      simp only [digitGroup, Bool.decide_and, Bool.and_eq_true, decide_eq_true_eq]
      exact ⟨hds, by omega, by omega⟩
    simp [firstDateMatch, matchYearFirst, matchDayFirst, hdash, hsplit, hgd, hgm, hgy]
  · -- dash: the year-first dash matcher rejects the short day group, the
    -- slash matcher sees no slash, the dash day-first matcher fires
    have hslash := splitSep_not_mem '/' _ (hother '/' (by decide) (by decide))
    have hgd : digitGroup 1 2 ds = true := by
      simp only [digitGroup, Bool.decide_and, Bool.and_eq_true, decide_eq_true_eq]
      exact ⟨hds, hdsl.1, hdsl.2⟩
    have hgbad : digitGroup 4 4 ds = false := by
      simp only [digitGroup, Bool.decide_and, Bool.and_eq_false_iff, decide_eq_false_iff_not]
      right
      left
      omega
    simp [firstDateMatch, matchYearFirst, matchDayFirst, hslash, hsplit, hgd, hgm, hgy, hgbad]
  · -- dot: neither dash nor slash occurs, the dot day-first matcher fires
    have hdash := splitSep_not_mem '-' _ (hother '-' (by decide) (by decide))
    have hslash := splitSep_not_mem '/' _ (hother '/' (by decide) (by decide))
    have hgd : digitGroup 1 2 ds = true := by
      simp only [digitGroup, Bool.decide_and, Bool.and_eq_true, decide_eq_true_eq]
      exact ⟨hds, hdsl.1, hdsl.2⟩
    simp [firstDateMatch, matchYearFirst, matchDayFirst, hdash, hslash, hsplit, hgd, hgm, hgy]

end ZRA

namespace ZRA

/-- C6 amended witness: `"31/12/2023"` normalizes day-first to
`"2023-12-31"` with high confidence (relative to the day 2024-06-15). -/
theorem c6_day_first_formats_amended_witness :
    normalizeDate ⟨2024, 6, 15⟩
        (some (.str (String.mk (['3', '1'] ++ '/' :: (['1', '2'] ++ '/' :: ['2', '0', '2', '3']))))) =
      ⟨String.mk ['2', '0', '2', '3'] ++ "-" ++ String.mk (padZerosTo 2 ['1', '2']) ++ "-" ++
        String.mk (padZerosTo 2 ['3', '1']), .high⟩ :=
  c6_day_first_formats_amended ⟨2024, 6, 15⟩ '/' ['3', '1'] ['1', '2'] ['2', '0', '2', '3']
    (Or.inl rfl) (by decide) (by decide) (by decide) (by decide) (fun _ => by decide)
    (by decide) (by decide) (by decide) (by decide) (by decide) (by decide)

end ZRA

namespace ZRA

/-- The record view each batch element is validated through: non-objects are
wrapped as `{value: e}`, a single-key object wrapper is unwrapped. -/
def recView (elem : JVal) : JObj :=
  match elem with
  | .obj fs =>
    match unwrapKey fs with
    | some (_, inner) => inner
    | none => fs
  | w => [("value", w)]

/-- The trimmed invoice-number string of a record, when one is truthy. -/
def invKey (r : JObj) : Option String :=
  match invoiceVal r with
  | some v => if truthy (some v) then some (jsTrim (jsString v)) else none
  | none => none

/-- The invoice-number string of the `i`-th batch element. -/
def invKeyAt (recs : List JVal) (i : ℕ) : Option String :=
  invKey (recView (recs.getD i .null))

/-- Effect of one record on the dedup table. -/
def invoiceSeenStep (seen : Seen) (idx : ℕ) (key : Option String) : Seen :=
  match key with
  | some s =>
    match lookupSeen seen s with
    | some _ => seen
    | none => seen ++ [(s, idx)]
  | none => seen

/-- The dedup table after the first `k` records of a batch. -/
def seenAfter (today : YMD) (recs : List JVal) : ℕ → Seen
  | 0 => []
  | k + 1 => (processRecord today (seenAfter today recs k) k (recs.getD k .null)).2.2

/-- A record's issues and dedup output are those of `recordCore` on its
view. -/
theorem processRecord_parts (today : YMD) (seen : Seen) (idx : ℕ) (elem : JVal) :
    (processRecord today seen idx elem).2 = (recordCore today seen idx (recView elem)).2 := by
  match elem with
  | .obj fs =>
    simp only [processRecord, recView]
    match unwrapKey fs with
    | some (k, inner) => rfl
    | none => rfl
  | .null => rfl
  | .bool b => rfl
  | .num q => rfl
  | .str s => rfl
  | .arr xs => rfl

/-- The invoice block in terms of `invKey`. -/
theorem invoiceBlock_eq (seen : Seen) (idx : ℕ) (r : JObj) :
    invoiceBlock seen idx r =
      match invKey r with
      | some s =>
        (match lookupSeen seen s with
         | some first => ([dupIssue idx first s], seen)
         | none => ([], seen ++ [(s, idx)]))
      | none => ([invMissingIssue idx], seen) := by
  simp only [invoiceBlock, invKey]
  match hv : invoiceVal r with
  | some v =>
    by_cases ht : truthy (some v)
    · simp [ht]
    · simp only [ht, if_neg]
      simp [ht]
  | none => simp [truthy]

/-- The dedup output of a record is `invoiceSeenStep` of its invoice key. -/
theorem processRecord_seen (today : YMD) (seen : Seen) (idx : ℕ) (elem : JVal) :
    (processRecord today seen idx elem).2.2 =
      invoiceSeenStep seen idx (invKey (recView elem)) := by
  have h := processRecord_parts today seen idx elem
  have h2 : (processRecord today seen idx elem).2.2 =
      (recordCore today seen idx (recView elem)).2.2 := by rw [h]
  rw [h2]
  show (invoiceBlock seen idx (recView elem)).2 = _
  rw [invoiceBlock_eq]
  simp only [invoiceSeenStep]
  rcases hk : invKey (recView elem) with _ | s
  · rfl
  · rcases hls : lookupSeen seen s with _ | first <;> simp [hls]

end ZRA

namespace ZRA

/-- Lookup through an appended entry. -/
theorem lookupSeen_append (seen : Seen) (p : String × ℕ) (s : String) :
    lookupSeen (seen ++ [p]) s =
      match lookupSeen seen s with
      | some i => some i
      | none => if p.1 = s then some p.2 else none := by
  induction seen with
  | nil => rfl
  | cons q rest ih =>
      obtain ⟨s', i'⟩ := q
      by_cases h : s' = s
      · simp [lookupSeen, h]
      · simp [lookupSeen, h, ih]

/-- Least index bearing a given invoice number. -/
theorem exists_least_key (recs : List JVal) (s : String) (i' : ℕ)
    (h : invKeyAt recs i' = some s) :
    ∃ m, invKeyAt recs m = some s ∧ m ≤ i' ∧ ∀ j < m, invKeyAt recs j ≠ some s := by
  have hex : ∃ n, invKeyAt recs n = some s := ⟨i', h⟩
  exact ⟨Nat.find hex, Nat.find_spec hex, Nat.find_min' hex h,
    fun j hj => Nat.find_min hex hj⟩

/-- Characterization of the dedup table: after `k` records it maps a string
`s` to `i` exactly when record `i` is the first among the first `k` records
whose invoice number is `s`. -/
theorem seenAfter_lookup (today : YMD) (recs : List JVal) : ∀ (k : ℕ) (s : String) (i : ℕ),
    lookupSeen (seenAfter today recs k) s = some i ↔
      (i < k ∧ invKeyAt recs i = some s ∧ ∀ i' < i, invKeyAt recs i' ≠ some s) := by
  intro k
  induction k with
  | zero =>
      intro s i
      simp [seenAfter, lookupSeen]
  | succ k ih =>
      intro s i
      rw [seenAfter, processRecord_seen]
      rcases hk : invKey (recView (recs.getD k .null)) with _ | sk
      · -- record k has no invoice number: table unchanged
        simp only [invoiceSeenStep]
        rw [ih]
        constructor
        · rintro ⟨h1, h2, h3⟩
          exact ⟨Nat.lt_succ_of_lt h1, h2, h3⟩
        · rintro ⟨h1, h2, h3⟩
          refine ⟨?_, h2, h3⟩
          rcases Nat.lt_succ_iff_lt_or_eq.mp h1 with h | rfl
          · exact h
          · simp only [invKeyAt, hk] at h2
            exact absurd h2 (by simp)
      · -- record k carries invoice number sk
        simp only [invoiceSeenStep]
        rcases hls : lookupSeen (seenAfter today recs k) sk with _ | i1
        · -- sk unseen: the entry (sk, k) is appended
          rw [lookupSeen_append]
          constructor
          · intro hL
            rcases hs : lookupSeen (seenAfter today recs k) s with _ | i0
            · rw [hs] at hL
              simp only at hL
              by_cases hss : sk = s
              · rw [if_pos hss] at hL
                have hik : k = i := by simpa using hL
                subst hik
                refine ⟨Nat.lt_succ_self _, by
                  show invKey (recView (recs.getD k JVal.null)) = some s
                  rw [hk, hss], ?_⟩
                intro i' hi' hkey
                obtain ⟨m, hm, hmle, hmin⟩ := exists_least_key recs s i' hkey
                have hsome := (ih s m).mpr ⟨lt_of_le_of_lt hmle hi', hm, hmin⟩
                rw [hs] at hsome
                exact Option.noConfusion hsome
              · rw [if_neg hss] at hL
                exact absurd hL (by simp)
            · rw [hs] at hL
              simp only at hL
              have hii : i0 = i := by simpa using hL
              subst hii
              have hold := (ih s i0).mp hs
              exact ⟨Nat.lt_succ_of_lt hold.1, hold.2.1, hold.2.2⟩
          · rintro ⟨h1, h2, h3⟩
            rcases Nat.lt_succ_iff_lt_or_eq.mp h1 with hlt | rfl
            · have hsome := (ih s i).mpr ⟨hlt, h2, h3⟩
              rw [hsome]
            · have hss : sk = s := by
                simp only [invKeyAt, hk] at h2
                simpa using h2
              have hs : lookupSeen (seenAfter today recs i) s = none := by
                rcases hq : lookupSeen (seenAfter today recs i) s with _ | i0
                · rfl
                · have hold := (ih s i0).mp hq
                  exact absurd hold.2.1 (h3 i0 hold.1)
              rw [hs]
              simp [hss]
        · -- sk already seen: table unchanged
          rw [ih]
          constructor
          · rintro ⟨h1, h2, h3⟩
            exact ⟨Nat.lt_succ_of_lt h1, h2, h3⟩
          · rintro ⟨h1, h2, h3⟩
            rcases Nat.lt_succ_iff_lt_or_eq.mp h1 with hlt | rfl
            · exact ⟨hlt, h2, h3⟩
            · have hss : sk = s := by
                simp only [invKeyAt, hk] at h2
                simpa using h2
              subst hss
              have hold := (ih sk i1).mp hls
              exact absurd hold.2.1 (h3 i1 hold.1)

end ZRA

namespace ZRA

/-- The issue log decomposes at any batch position: issues of the first `j`
records, then the run of the rest started on `seenAfter j`. -/
theorem runRecords_decompose (today : YMD) (recs : List JVal) :
    ∀ j ≤ recs.length, ∃ pre : List Issue,
      (runRecords today recs 0 []).2 =
        pre ++ (runRecords today (recs.drop j) j (seenAfter today recs j)).2 := by
  intro j
  induction j with
  | zero => exact fun _ => ⟨[], rfl⟩
  | succ j ih =>
      intro hj
      obtain ⟨pre, hpre⟩ := ih (Nat.le_of_succ_le hj)
      have hjlt : j < recs.length := hj
      have hdrop : recs.drop j = recs.getD j .null :: recs.drop (j + 1) := by
        rw [List.drop_eq_getElem_cons hjlt, List.getD_eq_getElem recs .null hjlt]
      rw [hpre, hdrop]
      refine ⟨pre ++ (processRecord today (seenAfter today recs j) j (recs.getD j .null)).2.1, ?_⟩
      rw [List.append_assoc]
      rfl

/-- `mandatoryIssues` never emits a duplicate issue. -/
theorem mandatoryIssues_no_dup (idx : ℕ) (r : JObj) :
    ∀ issue ∈ mandatoryIssues idx r, issue.category ≠ Category.duplicate := by
  intro issue hmem
  simp only [mandatoryIssues, List.mem_map] at hmem
  obtain ⟨f, _, rfl⟩ := hmem
  simp

/-- The currency block never emits a duplicate issue. -/
theorem currencyBlock_no_dup (idx : ℕ) (r fixed : JObj) :
    ∀ issue ∈ (currencyBlock idx r fixed).2, issue.category ≠ Category.duplicate := by
  intro issue hmem
  simp only [currencyBlock, currencyMissing] at hmem
  split at hmem
  · split at hmem
    · split at hmem
      · simp at hmem
        subst hmem
        simp
      · simp at hmem
    · simp at hmem
  · simp at hmem
    subst hmem
    simp

/-- The TPIN block never emits a duplicate issue. -/
theorem tpinBlock_no_dup (idx : ℕ) (r fixed : JObj) :
    ∀ issue ∈ (tpinBlock idx r fixed).2, issue.category ≠ Category.duplicate := by
  intro issue hmem
  simp only [tpinBlock] at hmem
  split at hmem
  · split at hmem
    · simp at hmem
      subst hmem
      simp
    · simp at hmem
  · simp at hmem

/-- One date step preserves freedom from duplicate issues. -/
theorem dateFieldStep_no_dup (today : YMD) (idx : ℕ) (r : JObj)
    (acc : JObj × List Issue) (f : String)
    (hacc : ∀ issue ∈ acc.2, issue.category ≠ Category.duplicate) :
    ∀ issue ∈ (dateFieldStep today idx r acc f).2, issue.category ≠ Category.duplicate := by
  intro issue hmem
  simp only [dateFieldStep] at hmem
  split at hmem
  · split at hmem
    · simp only [List.mem_append, List.mem_singleton] at hmem
      rcases hmem with h | rfl
      · exact hacc issue h
      · simp
    · exact hacc issue hmem
  · exact hacc issue hmem

/-- The dates block never emits a duplicate issue. -/
theorem datesBlock_no_dup (today : YMD) (idx : ℕ) (r fixed : JObj) :
    ∀ issue ∈ (datesBlock today idx r fixed).2, issue.category ≠ Category.duplicate := by
  have hgen : ∀ (fields : List String) (acc : JObj × List Issue),
      (∀ issue ∈ acc.2, issue.category ≠ Category.duplicate) →
      ∀ issue ∈ (fields.foldl (dateFieldStep today idx r) acc).2,
        issue.category ≠ Category.duplicate := by
    intro fields
    induction fields with
    | nil => exact fun acc hacc => hacc
    | cons f rest ihf =>
        intro acc hacc
        rw [List.foldl_cons]
        exact ihf _ (dateFieldStep_no_dup today idx r acc f hacc)
  exact hgen dateFields (fixed, []) (by simp)

/-- The VAT-rate block never emits a duplicate issue. -/
theorem vatBlock_no_dup (idx : ℕ) (r fixed : JObj) :
    ∀ issue ∈ (vatBlock idx r fixed).2, issue.category ≠ Category.duplicate := by
  intro issue hmem
  simp only [vatBlock, vatSetStandard] at hmem
  split at hmem
  · simp at hmem
    subst hmem
    simp
  · split at hmem
    · simp at hmem
      subst hmem
      simp
    · split at hmem
      · simp at hmem
        subst hmem
        simp
      · simp at hmem

end ZRA

namespace ZRA

/-- One line item never emits a duplicate issue. -/
theorem processLine_no_dup (idx j : ℕ) (line fl : JVal) :
    ∀ issue ∈ (processLine idx j line fl).2, issue.category ≠ Category.duplicate := by
  intro issue hmem
  simp only [processLine] at hmem
  repeat' split at hmem
  all_goals simp_all [List.mem_append, List.mem_singleton]
  all_goals first
    | (rcases hmem with rfl | rfl | rfl | rfl <;> simp)
    | (rcases hmem with rfl | rfl | rfl <;> simp)
    | (rcases hmem with rfl | rfl <;> simp)
    | (subst hmem; simp)

end ZRA

namespace ZRA

/-- The line loop never emits a duplicate issue. -/
theorem processLines_no_dup (idx : ℕ) :
    ∀ (j : ℕ) (lines fixedItems : List JVal),
      ∀ issue ∈ (processLines idx j lines fixedItems).2, issue.category ≠ Category.duplicate := by
  intro j lines
  induction lines generalizing j with
  | nil =>
      intro fixedItems issue hmem
      simp [processLines] at hmem
  | cons line rest ih =>
      intro fixedItems issue hmem
      simp only [processLines, List.mem_append] at hmem
      rcases hmem with h | h
      · exact processLine_no_dup idx j line _ issue h
      · exact ih (j + 1) _ issue h

/-- The line-items block never emits a duplicate issue. -/
theorem lineItemsBlock_no_dup (idx : ℕ) (r fixed : JObj) :
    ∀ issue ∈ (lineItemsBlock idx r fixed).2, issue.category ≠ Category.duplicate := by
  intro issue hmem
  simp only [lineItemsBlock] at hmem
  repeat' split at hmem
  all_goals simp only [List.nil_append, List.singleton_append, List.mem_cons,
    List.mem_singleton, List.not_mem_nil] at hmem
  all_goals
    first
      | exact hmem.elim
      | (exact processLines_no_dup idx 0 _ _ issue hmem)
      | (rcases hmem with rfl | h
         · simp
         · first
             | exact processLines_no_dup idx 0 _ _ issue h
             | exact h.elim)
      | (subst hmem
         simp)

/-- The totals block never emits a duplicate issue. -/
theorem totalsBlock_no_dup (idx : ℕ) (r fixed : JObj) :
    ∀ issue ∈ (totalsBlock idx r fixed).2, issue.category ≠ Category.duplicate := by
  intro issue hmem
  simp only [totalsBlock, negTotalsIssue] at hmem
  repeat' split at hmem
  all_goals simp only [List.mem_append, List.mem_singleton, List.not_mem_nil,
    List.nil_append, List.append_nil, List.singleton_append, List.mem_cons,
    or_false, false_or, or_assoc] at hmem
  all_goals
    first
      | exact hmem.elim
      | (rcases hmem with rfl | rfl | rfl | rfl | rfl | rfl <;> simp)
      | (rcases hmem with rfl | rfl | rfl | rfl | rfl <;> simp)
      | (rcases hmem with rfl | rfl | rfl | rfl <;> simp)
      | (rcases hmem with rfl | rfl | rfl <;> simp)
      | (rcases hmem with rfl | rfl <;> simp)
      | (subst hmem
         simp)

/-- The schema block never emits a duplicate issue. -/
theorem schemaBlock_no_dup (idx : ℕ) (r : JObj) :
    ∀ issue ∈ schemaBlock idx r, issue.category ≠ Category.duplicate := by
  intro issue hmem
  simp only [schemaBlock] at hmem
  split at hmem
  · simp at hmem
    subst hmem
    simp
  · simp at hmem

end ZRA

namespace ZRA

/-- When the invoice number was not seen before (or is absent), the invoice
block emits no duplicate issue. -/
theorem invoiceBlock_no_dup_of_unseen (seen : Seen) (idx : ℕ) (r : JObj)
    (h : ∀ s, invKey r = some s → lookupSeen seen s = none) :
    ∀ issue ∈ (invoiceBlock seen idx r).1, issue.category ≠ Category.duplicate := by
  intro issue hmem
  rw [invoiceBlock_eq] at hmem
  rcases hk : invKey r with _ | s
  · rw [hk] at hmem
    simp at hmem
    subst hmem
    simp [invMissingIssue]
  · simp only [hk] at hmem
    rw [h s hk] at hmem
    simp at hmem

/-- A record whose invoice block is duplicate-free produces no duplicate
issue at all: every other rule block emits other categories. -/
theorem recordCore_no_dup (today : YMD) (seen : Seen) (idx : ℕ) (r : JObj)
    (hinv : ∀ issue ∈ (invoiceBlock seen idx r).1, issue.category ≠ Category.duplicate) :
    ∀ issue ∈ (recordCore today seen idx r).2.1, issue.category ≠ Category.duplicate := by
  intro issue hmem
  simp only [recordCore, List.mem_append, or_assoc] at hmem
  rcases hmem with h | h | h | h | h | h | h | h | h
  · exact mandatoryIssues_no_dup idx r issue h
  · exact hinv issue h
  · exact currencyBlock_no_dup idx r _ issue h
  · exact tpinBlock_no_dup idx r _ issue h
  · exact datesBlock_no_dup today idx r _ issue h
  · exact vatBlock_no_dup idx r _ issue h
  · exact lineItemsBlock_no_dup idx r _ issue h
  · exact totalsBlock_no_dup idx r _ issue h
  · exact schemaBlock_no_dup idx r issue h

/-- A repeated invoice number makes the record's issue list contain the
duplicate issue referencing the table's first-occurrence index. -/
theorem processRecord_dup_mem (today : YMD) (seen : Seen) (idx : ℕ) (elem : JVal)
    (s : String) (first : ℕ)
    (hkey : invKey (recView elem) = some s)
    (hseen : lookupSeen seen s = some first) :
    dupIssue idx first s ∈ (processRecord today seen idx elem).2.1 := by
  have h1 : (processRecord today seen idx elem).2.1 =
      (recordCore today seen idx (recView elem)).2.1 := by
    rw [processRecord_parts]
  rw [h1]
  have hinv : (invoiceBlock seen idx (recView elem)).1 = [dupIssue idx first s] := by
    rw [invoiceBlock_eq]
    simp only [hkey]
    rw [hseen]
  simp only [recordCore, List.mem_append, or_assoc]
  right
  left
  rw [hinv]
  exact List.mem_singleton.mpr rfl

/-- C7: in one batch, a record whose trimmed invoice number repeats that of
an earlier record produces the duplicate error issue referencing the first
occurrence (never auto-fixed, per `dupIssue`), while the first occurrence's
record produces no duplicate-category issue at all.  The dedup table is a
function-local structure threaded from the empty table, so separate calls
cannot influence one another. -/
theorem c7_duplicate_invoice_detection (today : YMD) (recs : List JVal) (ft : String)
    (j i0 : ℕ) (s : String)
    (hj : j < recs.length)
    (hkeyj : invKeyAt recs j = some s)
    (hi0 : i0 < j)
    (hkey0 : invKeyAt recs i0 = some s)
    (hmin : ∀ i' < i0, invKeyAt recs i' ≠ some s) :
    dupIssue j i0 s ∈ (validateAndFix today (JVal.arr recs) ft).issues ∧
    (∀ issue ∈ (processRecord today (seenAfter today recs i0) i0 (recs.getD i0 .null)).2.1,
      issue.category ≠ Category.duplicate) := by
  constructor
  · have hlook : lookupSeen (seenAfter today recs j) s = some i0 :=
      (seenAfter_lookup today recs j s i0).mpr ⟨hi0, hkey0, hmin⟩
    have hdupmem := processRecord_dup_mem today (seenAfter today recs j) j
      (recs.getD j .null) s i0 hkeyj hlook
    have hiss : (validateAndFix today (JVal.arr recs) ft).issues =
        (runRecords today recs 0 []).2 := rfl
    obtain ⟨pre, hpre⟩ := runRecords_decompose today recs j (le_of_lt hj)
    have hdrop : recs.drop j = recs.getD j .null :: recs.drop (j + 1) := by
      rw [List.drop_eq_getElem_cons hj, List.getD_eq_getElem recs .null hj]
    rw [hiss, hpre, hdrop]
    simp only [runRecords]
    exact List.mem_append.mpr (Or.inr (List.mem_append.mpr (Or.inl hdupmem)))
  · have hunseen : ∀ s', invKey (recView (recs.getD i0 .null)) = some s' →
        lookupSeen (seenAfter today recs i0) s' = none := by
      intro s' hk
      have hss : s' = s := by
        have h0 : invKeyAt recs i0 = some s' := hk
        rw [hkey0] at h0
        exact (Option.some.inj h0).symm
      subst hss
      rcases hq : lookupSeen (seenAfter today recs i0) s' with _ | i1
      · rfl
      · have hold := (seenAfter_lookup today recs i0 s' i1).mp hq
        exact absurd hold.2.1 (hmin i1 hold.1)
    intro issue hmem
    have h1 : (processRecord today (seenAfter today recs i0) i0 (recs.getD i0 .null)).2.1 =
        (recordCore today (seenAfter today recs i0) i0 (recView (recs.getD i0 .null))).2.1 := by
      rw [processRecord_parts]
    rw [h1] at hmem
    exact recordCore_no_dup today _ i0 _
      (invoiceBlock_no_dup_of_unseen _ i0 _ hunseen) issue hmem

end ZRA

namespace ZRA

/-- The two-record batch of the C7 witness: the same invoice number, the
second occurrence with surrounding whitespace that trimming removes. -/
def c7Batch : List JVal :=
  [.obj [("InvoiceNumber", .str "X1")], .obj [("InvoiceNumber", .str " X1 ")]]

/-- C7 witness: in the concrete two-record batch the second record yields
the duplicate error referencing Record 1, and the first record's issues
contain no duplicate issue. -/
theorem c7_duplicate_invoice_detection_witness :
    dupIssue 1 0 "X1" ∈ (validateAndFix ⟨2025, 6, 15⟩ (JVal.arr c7Batch) "json").issues ∧
    (∀ issue ∈ (processRecord ⟨2025, 6, 15⟩ (seenAfter ⟨2025, 6, 15⟩ c7Batch 0) 0
        (c7Batch.getD 0 .null)).2.1,
      issue.category ≠ Category.duplicate) :=
  c7_duplicate_invoice_detection ⟨2025, 6, 15⟩ c7Batch "json" 1 0 "X1"
    (by decide) rfl (by decide) rfl
    (fun i' h => absurd h (Nat.not_lt_zero i'))

end ZRA
